import Mathlib

/-!
Verification of the task-processing core (C++ implementation: `task.h`/`task.cpp`,
`worker.h`/`worker.cpp`, `calculations.h`/`calculations.cpp`,
`orchestrator.h`/`orchestrator.cpp`) as a shallow embedding in Lean 4.

Machine integers: task inputs are C++ `int`; they are modelled as `Int`
(no arithmetic in the validated ranges can overflow 32 bits).  The
`std::unordered_map<std::string, Task>` is modelled as an association list
with first-match lookup and replace-or-append insertion.  Counters
(`std::atomic<uint64_t>`) are modelled as `Nat`; timestamps are modelled as
a `Nat` field fixed at construction (their value is irrelevant to every
claim).  Thread interleavings are modelled by a labelled transition system
whose steps are the individual critical sections of the C++ code (each
storage write happens under `storage_mutex_`).
-/

namespace TaskSys

/-- Decidable equality for `Except`, so that concrete runs of the fallible
calculation functions can be checked by `decide`. -/
instance {ε α : Type} [DecidableEq ε] [DecidableEq α] : DecidableEq (Except ε α) :=
  fun a b =>
    match a, b with
    | Except.ok x, Except.ok y =>
        if h : x = y then isTrue (by rw [h]) else isFalse (by simp [h])
    | Except.error x, Except.error y =>
        if h : x = y then isTrue (by rw [h]) else isFalse (by simp [h])
    | Except.ok _, Except.error _ => isFalse (by simp)
    | Except.error _, Except.ok _ => isFalse (by simp)

/-- Task status (task.h `enum class TaskStatus`). -/
inductive TaskStatus where
  | PENDING
  | PROCESSING
  | COMPLETED
  | FAILED
deriving DecidableEq

/-- Task priority (task.h `enum class Priority`, LOW=1 MEDIUM=2 HIGH=3). -/
inductive Priority where
  | LOW
  | MEDIUM
  | HIGH
deriving DecidableEq

/-- Payload of a task (task.h `struct TaskData`). -/
structure TaskData where
  type : String
  input : Int
  operation : String
deriving DecidableEq

/-- A task record (task.h `class Task`). -/
structure Task where
  id : String
  title : String
  priority : Priority
  created_at : Nat
  data : TaskData
  status : TaskStatus
  result : String
  error_message : String
deriving DecidableEq

/-- The four-argument constructor `Task(id, title, priority, data)` from task.cpp:
status starts PENDING, result and error empty, timestamp taken at construction
(modelled as 0). -/
def Task.create (id title : String) (priority : Priority) (data : TaskData) : Task :=
  { id := id, title := title, priority := priority, created_at := 0, data := data,
    status := TaskStatus.PENDING, result := "", error_message := "" }

/-- Setter `Task::setStatus`. -/
def Task.setStatus (t : Task) (s : TaskStatus) : Task := { t with status := s }

/-- Setter `Task::setResult`. -/
def Task.setResult (t : Task) (r : String) : Task := { t with result := r }

/-- Setter `Task::setErrorMessage`. -/
def Task.setErrorMessage (t : Task) (e : String) : Task := { t with error_message := e }

/-- task.cpp `stringToTaskStatus`: unknown strings default to PENDING. -/
def stringToTaskStatus (s : String) : TaskStatus :=
  if s = "pending" then TaskStatus.PENDING
  else if s = "processing" then TaskStatus.PROCESSING
  else if s = "completed" then TaskStatus.COMPLETED
  else if s = "failed" then TaskStatus.FAILED
  else TaskStatus.PENDING

/-- A parsed JSON create payload, with the optional fields `Task::from_json`
looks at (`priority`, `status`, `result`, `error`); `id`, `title` and `data`
are required by the code (it throws when they are absent, a case the claims
do not touch). -/
structure TaskJson where
  id : String
  title : String
  priority : Option Int
  data : TaskData
  status : Option String
  result : Option String
  error : Option String
deriving DecidableEq

/-- task.cpp `Task::from_json`: builds the task with the 4-argument
constructor, then installs caller-supplied `status`, `result` and `error`
fields verbatim when present.  Priority defaults to MEDIUM unless an int in
[1,3] is supplied. -/
def Task.from_json (j : TaskJson) : Task :=
  let priority : Priority :=
    match j.priority with
    | some p =>
        if 1 ≤ p ∧ p ≤ 3 then
          (if p = 1 then Priority.LOW else if p = 2 then Priority.MEDIUM else Priority.HIGH)
        else Priority.MEDIUM
    | none => Priority.MEDIUM
  let t0 := Task.create j.id j.title priority j.data
  let t1 := match j.status with
    | some s => t0.setStatus (stringToTaskStatus s)
    | none => t0
  let t2 := match j.result with
    | some r => { t1 with result := r }
    | none => t1
  match j.error with
  | some e => { t2 with error_message := e }
  | none => t2

/-- task.cpp `Task::isValid`, translated branch by branch. -/
def Task.isValid (t : Task) : Bool :=
  if t.id = "" ∨ t.title = "" then false
  else if t.data.type ≠ "calculation" then false
  else if t.data.operation ≠ "factorial" ∧ t.data.operation ≠ "fibonacci" ∧
      t.data.operation ≠ "prime_check" then false
  else if t.data.input < 0 ∨ t.data.input > 100000 then false
  else if t.data.operation = "factorial" ∧ t.data.input > 20 then false
  else if t.data.operation = "fibonacci" ∧ t.data.input > 1000 then false
  else if t.data.operation = "prime_check" ∧ t.data.input < 2 then false
  else true

/-! Little-endian decimal digit lists.  `decDigits c` is the digit list the
C++ carry loops produce (`while (carry) push_back(carry % 10)`); it is given
explicit fuel so that the kernel can evaluate it (the carry shrinks by a
factor 10 each round, so `c` itself is always enough fuel). -/

/-- Fuelled little-endian decimal digits of a natural number. -/
def decDigitsFuel : Nat → Nat → List Nat
  | 0, _ => []
  | fuel + 1, c => if c = 0 then [] else c % 10 :: decDigitsFuel fuel (c / 10)

/-- Little-endian decimal digits of `c` (empty for 0). -/
def decDigits (c : Nat) : List Nat := decDigitsFuel c c

/-- Value of a little-endian digit list. -/
def ofDigitsRev : List Nat → Nat
  | [] => 0
  | d :: ds => d + 10 * ofDigitsRev ds

/-- ASCII digit character, as produced by `std::to_string` on a value in [0,9]. -/
def digitChar (d : Nat) : Char := Char.ofNat ('0'.toNat + d)

/-- Numeric value of an ASCII digit character (`c - '0'` in the C++ code). -/
def charDigit (c : Char) : Nat := c.toNat - '0'.toNat

/-- The usual decimal representation of a natural number: most significant
digit first, no leading zeros, and `"0"` for zero.  This is the
specification-side meaning of "the exact decimal representation as a
string". -/
def decimalRepr (n : Nat) : String :=
  if n = 0 then "0" else String.mk (((decDigits n).map digitChar).reverse)

namespace calculations

/-- Inner loop of calculations.cpp `factorial`: multiply the little-endian
digit vector by `i`, propagating `carry`, then push the remaining carry. -/
def mulDigits : List Nat → Nat → Nat → List Nat
  | [], _, carry => decDigits carry
  | d :: ds, i, carry => (d * i + carry) % 10 :: mulDigits ds i ((d * i + carry) / 10)

/-- Outer loop of `factorial`: `for (i = 2; i <= n; i++)` multiplying the
digit vector; `k` counts the remaining iterations. -/
def factLoop : Nat → Nat → List Nat → List Nat
  | 0, _, acc => acc
  | k + 1, i, acc => factLoop k (i + 1) (mulDigits acc i 0)

/-- calculations.cpp `factorial` on a non-negative value: early return "1"
for 0 and 1, otherwise run the digit-vector loop starting from [1] and print
the digits most significant first. -/
def factorialStr (n : Nat) : String :=
  if n = 0 ∨ n = 1 then "1"
  else String.mk (((factLoop (n - 1) 2 [1]).map digitChar).reverse)

/-- calculations.cpp `std::string factorial(int n)`: throws
`std::invalid_argument` on negative input (modelled as `Except.error` with
the exact message), otherwise returns the digit string. -/
def factorial (n : Int) : Except String String :=
  if n < 0 then Except.error "Factorial is not defined for negative numbers"
  else Except.ok (factorialStr n.toNat)

/-- Tail of calculations.cpp `addStrings` once the shorter number is
exhausted: keep adding the carry into the remaining digits. -/
def addTail : List Nat → Nat → List Nat
  | [], c => decDigits c
  | d :: ds, c => (d + c) % 10 :: addTail ds ((d + c) / 10)

/-- calculations.cpp `addStrings` on little-endian digit lists: digit-wise
add with carry, a missing digit counting as 0, then flush the final carry
(`while (i >= 0 || j >= 0 || carry)`). -/
def addRevDigits : List Nat → List Nat → Nat → List Nat
  | [], ys, c => addTail ys c
  | x :: xs, ys, c =>
      (x + ys.headD 0 + c) % 10 :: addRevDigits xs ys.tail ((x + ys.headD 0 + c) / 10)

/-- calculations.cpp `addStrings`: reads both strings least significant
digit first (`num[i] - '0'`), adds with carry and prepends each result digit
(`std::to_string(sum % 10) + result`). -/
def addStrings (num1 num2 : String) : String :=
  String.mk
    (((addRevDigits (num1.data.reverse.map charDigit) (num2.data.reverse.map charDigit) 0).map
        digitChar).reverse)

/-- Loop of calculations.cpp `fibonacci`: `for (i = 2; i <= n; i++)
{ next = add(prev, curr); prev = curr; curr = next; }`; `k` counts the
remaining iterations. -/
def fibLoop : Nat → String → String → String
  | 0, _, curr => curr
  | k + 1, prev, curr => fibLoop k curr (addStrings prev curr)

/-- calculations.cpp `fibonacci` on a non-negative value. -/
def fibonacciStr (n : Nat) : String :=
  if n = 0 then "0" else if n = 1 then "1" else fibLoop (n - 1) "0" "1"

/-- calculations.cpp `std::string fibonacci(int n)`. -/
def fibonacci (n : Int) : Except String String :=
  if n < 0 then Except.error "Fibonacci is not defined for negative numbers"
  else Except.ok (fibonacciStr n.toNat)

/-- Linear search for the integer square root, with fuel so the kernel can
evaluate it: raise `k` while `(k+1)^2` still fits below `n`. -/
def isqrtFuel (n : Nat) : Nat → Nat → Nat
  | 0, k => k
  | fuel + 1, k => if (k + 1) * (k + 1) ≤ n then isqrtFuel n fuel (k + 1) else k

/-- The integer square root, i.e. the value of `(int)std::sqrt(n)` in
calculations.cpp `prime_check` (exact for every `int`, since `double`
represents these integers and their roots to well below half an ulp). -/
def isqrt (n : Nat) : Nat := isqrtFuel n n 0

/-- Trial-division loop of calculations.cpp `prime_check`:
`for (i = 3; i <= limit; i += 2) if (n % i == 0) return "false"`, with
`limit = (int)std::sqrt(n)`.  Fuelled so the kernel can evaluate it;
`isqrt n` rounds of fuel always cover the odd candidates up to the limit. -/
def primeLoop (n : Nat) : Nat → Nat → Bool
  | 0, _ => true
  | fuel + 1, i =>
      if i ≤ isqrt n then (if n % i = 0 then false else primeLoop n fuel (i + 2))
      else true

/-- calculations.cpp `prime_check` on a value that is at least 2. -/
def primeCheckStr (n : Nat) : String :=
  if n = 2 then "true"
  else if n % 2 = 0 then "false"
  else if primeLoop n (isqrt n) 3 then "true" else "false"

/-- calculations.cpp `std::string prime_check(int n)`. -/
def prime_check (n : Int) : Except String String :=
  if n < 2 then Except.error "Prime check requires number >= 2"
  else Except.ok (primeCheckStr n.toNat)

/-- calculations.cpp `validate_calculation_input`. -/
def validate_calculation_input (operation : String) (input : Int) : Bool :=
  if operation = "factorial" then decide (input ≥ 0)
  else if operation = "fibonacci" then decide (input ≥ 0)
  else if operation = "prime_check" then decide (input ≥ 2)
  else false

/-- calculations.cpp `execute_calculation`: validate, then dispatch; every
`throw` is modelled as `Except.error` with the thrown message. -/
def execute_calculation (operation : String) (input : Int) : Except String String :=
  if validate_calculation_input operation input = false then
    Except.error "Invalid operation or input"
  else if operation = "factorial" then factorial input
  else if operation = "fibonacci" then fibonacci input
  else if operation = "prime_check" then prime_check input
  else Except.error ("Unknown operation: " ++ operation)

end calculations

example : calculations.factorial 5 = Except.ok "120" := by decide
example : calculations.factorial 20 = Except.ok "2432902008176640000" := by decide
example : calculations.fibonacci 10 = Except.ok "55" := by decide
example : calculations.prime_check 17 = Except.ok "true" := by decide
example : calculations.prime_check 100 = Except.ok "false" := by decide
example : decimalRepr 120 = "120" := by decide

/-! Worker (worker.h / worker.cpp).  The task storage
`std::unordered_map<std::string, Task>` is modelled as an association list:
`mapFind?` is `find`, `mapInsert` is `task_storage_[id] = task`
(replace the entry when the key is present, append it otherwise). -/

/-- Lookup in the id-to-task map (`task_storage_.find(task_id)`). -/
def mapFind? : List (String × Task) → String → Option Task
  | [], _ => none
  | (k, v) :: rest, key => if k = key then some v else mapFind? rest key

/-- Insert-or-replace in the id-to-task map (`task_storage_[id] = task`). -/
def mapInsert : List (String × Task) → String → Task → List (String × Task)
  | [], key, v => [(key, v)]
  | (k, w) :: rest, key, v =>
      if k = key then (key, v) :: rest else (k, w) :: mapInsert rest key v

/-- State of one worker (worker.h `class Worker`): the FIFO queue, the
id-to-task storage, and the three statistics counters of `WorkerStats`. -/
structure Worker where
  task_queue : List Task
  task_storage : List (String × Task)
  tasks_processed : Nat
  tasks_completed : Nat
  tasks_failed : Nat
deriving DecidableEq

/-- A freshly started worker: empty queue, empty storage, zero counters. -/
def Worker.init : Worker :=
  { task_queue := [], task_storage := [], tasks_processed := 0,
    tasks_completed := 0, tasks_failed := 0 }

/-- worker.cpp `Worker::addTask`: push to the queue tail, insert/overwrite
the record in the storage map. -/
def Worker.addTask (w : Worker) (task : Task) : Worker :=
  { w with task_queue := w.task_queue ++ [task],
           task_storage := mapInsert w.task_storage task.id task }

/-- worker.cpp `Worker::getTask`: snapshot copy of the stored record. -/
def Worker.getTask (w : Worker) (task_id : String) : Option Task :=
  mapFind? w.task_storage task_id

/-- worker.cpp `Worker::completeTask`, translated branch by branch: success
only for a PROCESSING record with a non-empty result (then COMPLETED and
`tasks_completed++`); a PROCESSING record with an empty result and a
non-empty error is flipped to FAILED with `false` returned and no counter
touched; everything else (or a missing id) returns `false` unchanged. -/
def Worker.completeTask (w : Worker) (task_id : String) : Worker × Bool :=
  match mapFind? w.task_storage task_id with
  | some task =>
      if task.status = TaskStatus.PROCESSING ∧ task.result ≠ "" then
        ({ w with
            task_storage := mapInsert w.task_storage task_id
              (task.setStatus TaskStatus.COMPLETED),
            tasks_completed := w.tasks_completed + 1 }, true)
      else if task.status = TaskStatus.PROCESSING ∧ task.result = "" ∧
          task.error_message ≠ "" then
        ({ w with
            task_storage := mapInsert w.task_storage task_id
              (task.setStatus TaskStatus.FAILED) }, false)
      else (w, false)
  | none => (w, false)

/-- First half of worker.cpp `Worker::processTask` (the first
`storage_mutex_` section): set the dequeued copy to PROCESSING and persist
that intermediate state. -/
def Worker.processTaskMid (w : Worker) (task : Task) : Worker :=
  { w with task_storage :=
      mapInsert w.task_storage task.id (task.setStatus TaskStatus.PROCESSING) }

/-- Second half of worker.cpp `Worker::processTask`, acting on the
PROCESSING copy `task`: run the calculation; on success store the result
(status left PROCESSING) and bump `tasks_processed`; on an exception store
the message, set FAILED, and bump `tasks_failed` and `tasks_processed`. -/
def Worker.finishTask (w : Worker) (task : Task) : Worker :=
  match calculations.execute_calculation task.data.operation task.data.input with
  | Except.ok result =>
      { w with
          task_storage := mapInsert w.task_storage task.id (task.setResult result),
          tasks_processed := w.tasks_processed + 1 }
  | Except.error e =>
      { w with
          task_storage := mapInsert w.task_storage task.id
            ((task.setErrorMessage e).setStatus TaskStatus.FAILED),
          tasks_failed := w.tasks_failed + 1,
          tasks_processed := w.tasks_processed + 1 }

/-- worker.cpp `Worker::processTask`: both halves in sequence. -/
def Worker.processTask (w : Worker) (task : Task) : Worker :=
  Worker.finishTask (Worker.processTaskMid w task) (task.setStatus TaskStatus.PROCESSING)

/-- One pass of worker.cpp `Worker::processTaskLoop` when work is
available: pop the queue head (strict FIFO) and process it. -/
def Worker.stepProcess (w : Worker) : Worker :=
  match w.task_queue with
  | [] => w
  | task :: rest => Worker.processTask { w with task_queue := rest } task

/-! Orchestrator (orchestrator.h / orchestrator.cpp).  The
`std::vector<std::unique_ptr<Worker>>` is modelled as an index function
together with the worker count; the round-robin counter is
`current_worker_`. -/

/-- System-wide statistics totals (orchestrator.h `struct SystemStats`). -/
structure SystemStats where
  total_tasks_processed : Nat
  total_tasks_completed : Nat
  total_tasks_failed : Nat
deriving DecidableEq

/-- orchestrator.cpp `TaskOrchestrator::updateSystemStats`: zero the totals
and re-accumulate every worker's live counters. -/
def updateSystemStats (ws : List Worker) : SystemStats :=
  { total_tasks_processed := (ws.map (fun w => w.tasks_processed)).sum,
    total_tasks_completed := (ws.map (fun w => w.tasks_completed)).sum,
    total_tasks_failed := (ws.map (fun w => w.tasks_failed)).sum }

/-- State of the orchestrator (orchestrator.h `class TaskOrchestrator`). -/
structure TaskOrchestrator where
  num_workers : Nat
  workers : Nat → Worker
  current_worker : Nat

/-- A freshly constructed orchestrator with `num_workers` fresh workers. -/
def TaskOrchestrator.init (num_workers : Nat) : TaskOrchestrator :=
  { num_workers := num_workers, workers := fun _ => Worker.init, current_worker := 0 }

/-- The list of workers in index order, as iterated by the C++ loops. -/
def TaskOrchestrator.workerList (o : TaskOrchestrator) : List Worker :=
  (List.range o.num_workers).map o.workers

/-- orchestrator.cpp `TaskOrchestrator::getSystemStats`: always recomputed
via `updateSystemStats`, never maintained incrementally. -/
def TaskOrchestrator.getSystemStats (o : TaskOrchestrator) : SystemStats :=
  updateSystemStats o.workerList

/-- orchestrator.cpp `TaskOrchestrator::validateTaskInput`, branch by
branch: `Task::isValid` plus the duplicated orchestrator-level operation
and range checks. -/
def TaskOrchestrator.validateTaskInput (task : Task) : Bool :=
  if task.isValid = false then false
  else if task.data.operation ≠ "factorial" ∧ task.data.operation ≠ "fibonacci" ∧
      task.data.operation ≠ "prime_check" then false
  else if task.data.operation = "factorial" ∧
      (task.data.input < 0 ∨ task.data.input > 20) then false
  else if task.data.operation = "fibonacci" ∧
      (task.data.input < 0 ∨ task.data.input > 1000) then false
  else if task.data.operation = "prime_check" ∧ task.data.input < 2 then false
  else true

/-- orchestrator.cpp `TaskOrchestrator::selectWorker`:
`current_worker_.fetch_add(1) % workers_.size()` — returns the old counter
value modulo the worker count and increments the counter. -/
def TaskOrchestrator.selectWorker (o : TaskOrchestrator) : TaskOrchestrator × Nat :=
  ({ o with current_worker := o.current_worker + 1 },
    o.current_worker % o.num_workers)

/-- orchestrator.cpp `TaskOrchestrator::distributeTask`: throw when there
are no workers, otherwise round-robin-select a worker and hand it the
task. -/
def TaskOrchestrator.distributeTask (o : TaskOrchestrator) (task : Task) :
    Except String (TaskOrchestrator × Nat) :=
  if o.num_workers = 0 then Except.error "No workers available"
  else
    let p := o.selectWorker
    Except.ok
      ({ p.1 with workers := fun i =>
          if i = p.2 then (p.1.workers i).addTask task else p.1.workers i }, p.2)

/-- orchestrator.cpp `TaskOrchestrator::createTask`: validate (throwing
`std::invalid_argument("Invalid task input")` on failure, before the
round-robin counter is touched), then distribute and return the task id.
The state component is the orchestrator after the call (unchanged when the
call throws). -/
def TaskOrchestrator.createTask (o : TaskOrchestrator) (task : Task) :
    TaskOrchestrator × Except String String :=
  if TaskOrchestrator.validateTaskInput task = false then
    (o, Except.error "Invalid task input")
  else
    match o.distributeTask task with
    | Except.ok (o2, _) => (o2, Except.ok task.id)
    | Except.error e => (o, Except.error e)

/-! A labelled transition system for one worker, whose steps are the
individual `storage_mutex_` critical sections of the C++ code, so that
every intermediate state a concurrent `getTask`/`completeTask` caller can
observe is a state of the system.  `inflight` holds the thread-local
PROCESSING copies of tasks that have been dequeued and marked but whose
calculation has not finished (one per busy processing thread).  Tasks enter
through `addTask` with the constructor defaults of §task.cpp (status
PENDING, empty result and error — i.e. payloads that do not inject a
status) and a fresh id. -/

/-- One worker together with the dequeued copies its threads are holding. -/
structure SysState where
  w : Worker
  inflight : List Task
deriving DecidableEq

/-- Labels naming which operation a step performs. -/
inductive WLabel where
  | create (t : Task)
  | dequeue
  | finish (t : Task)
  | complete (id : String)

/-- Small-step relation: `create` is `Worker::addTask` on a
constructor-fresh task with an unused id; `dequeue` pops the FIFO head and
performs the first `storage_mutex_` section of `processTask` (persisting
the PROCESSING copy); `finish` performs the second section for some
in-flight copy; `complete` is `Worker::completeTask` from any caller
thread. -/
inductive WStep : SysState → WLabel → SysState → Prop where
  | create (s : SysState) (t : Task)
      (hst : t.status = TaskStatus.PENDING) (hres : t.result = "")
      (herr : t.error_message = "")
      (hfresh : mapFind? s.w.task_storage t.id = none) :
      WStep s (WLabel.create t) ⟨s.w.addTask t, s.inflight⟩
  | dequeue (s : SysState) (t : Task) (rest : List Task)
      (hq : s.w.task_queue = t :: rest) :
      WStep s WLabel.dequeue
        ⟨Worker.processTaskMid { s.w with task_queue := rest } t,
          t.setStatus TaskStatus.PROCESSING :: s.inflight⟩
  | finish (s : SysState) (pre post : List Task) (t : Task)
      (hin : s.inflight = pre ++ t :: post) :
      WStep s (WLabel.finish t) ⟨Worker.finishTask s.w t, pre ++ post⟩
  | complete (s : SysState) (id : String) :
      WStep s (WLabel.complete id) ⟨(s.w.completeTask id).1, s.inflight⟩

/-- States reachable from a freshly started worker. -/
inductive Reachable : SysState → Prop where
  | init : Reachable ⟨Worker.init, []⟩
  | step (s s' : SysState) (l : WLabel) : Reachable s → WStep s l s' → Reachable s'

/-- Status of the stored record for `id`, as a lookup observes it. -/
def statusAt (s : SysState) (id : String) : Option TaskStatus :=
  (mapFind? s.w.task_storage id).map Task.status

/-- The legal evolutions of one id's stored status across a single step:
unchanged, created as PENDING, or advancing along
PENDING → PROCESSING → (COMPLETED or FAILED). -/
def advanceOk : Option TaskStatus → Option TaskStatus → Prop
  | none, none => True
  | none, some st => st = TaskStatus.PENDING
  | some _, none => False
  | some a, some b =>
      a = b ∨ (a = TaskStatus.PENDING ∧ b = TaskStatus.PROCESSING) ∨
        (a = TaskStatus.PROCESSING ∧
          (b = TaskStatus.COMPLETED ∨ b = TaskStatus.FAILED))

/-- Number of stored records whose status is PROCESSING: the tasks that
have been handled by a processing thread (or are being handled) but not
explicitly completed. -/
def countProcessing (m : List (String × Task)) : Nat :=
  m.countP (fun p => decide (p.2.status = TaskStatus.PROCESSING))

/-- The safety invariant of a worker's state: queued tasks are
constructor-fresh and registered unchanged in storage; in-flight copies are
PROCESSING with empty result and error and registered unchanged; ids of
queued plus in-flight tasks are distinct; storage keys are distinct; and no
stored record is PROCESSING with an empty result but a non-empty error. -/
def Inv (s : SysState) : Prop :=
  (∀ t ∈ s.w.task_queue, t.status = TaskStatus.PENDING ∧ t.result = "" ∧
      t.error_message = "" ∧ mapFind? s.w.task_storage t.id = some t) ∧
  (∀ t ∈ s.inflight, t.status = TaskStatus.PROCESSING ∧ t.result = "" ∧
      t.error_message = "" ∧ mapFind? s.w.task_storage t.id = some t) ∧
  ((s.w.task_queue ++ s.inflight).map Task.id).Nodup ∧
  (s.w.task_storage.map Prod.fst).Nodup ∧
  (∀ p ∈ s.w.task_storage, p.2.status = TaskStatus.PROCESSING →
      p.2.result = "" → p.2.error_message = "")

/-! Lemmas about the association-list map. -/

theorem mapFind?_insert_self (m : List (String × Task)) (k : String) (v : Task) :
    mapFind? (mapInsert m k v) k = some v := by
  induction m with
  | nil => simp [mapInsert, mapFind?]
  | cons p rest ih =>
      obtain ⟨k0, v0⟩ := p
      by_cases h : k0 = k
      · simp [mapInsert, h, mapFind?]
      · simp [mapInsert, h, mapFind?, ih]

theorem mapFind?_insert_ne (m : List (String × Task)) (k k' : String) (v : Task)
    (h : k' ≠ k) : mapFind? (mapInsert m k v) k' = mapFind? m k' := by
  induction m with
  | nil => simp [mapInsert, mapFind?, Ne.symm h]
  | cons p rest ih =>
      obtain ⟨k0, v0⟩ := p
      by_cases h0 : k0 = k
      · subst h0
        simp [mapInsert, mapFind?, Ne.symm h]
      · by_cases h1 : k0 = k'
        · simp [mapInsert, h0, mapFind?, h1, h]
        · simp [mapInsert, h0, mapFind?, h1, ih]

theorem mapFind?_eq_none_iff (m : List (String × Task)) (k : String) :
    mapFind? m k = none ↔ k ∉ m.map Prod.fst := by
  induction m with
  | nil => simp [mapFind?]
  | cons p rest ih =>
      obtain ⟨k0, v0⟩ := p
      by_cases h : k0 = k
      · subst h
        simp [mapFind?]
      · simp [mapFind?, h, ih, Ne.symm h]

theorem mapInsert_keys_of_found (m : List (String × Task)) (k : String) (v v' : Task)
    (h : mapFind? m k = some v') :
    (mapInsert m k v).map Prod.fst = m.map Prod.fst := by
  induction m with
  | nil => simp [mapFind?] at h
  | cons p rest ih =>
      obtain ⟨k0, v0⟩ := p
      by_cases h0 : k0 = k
      · simp [mapInsert, h0]
      · simp [mapFind?, h0] at h
        simp [mapInsert, h0, ih h]

theorem mapInsert_keys_of_fresh (m : List (String × Task)) (k : String) (v : Task)
    (h : mapFind? m k = none) :
    (mapInsert m k v).map Prod.fst = m.map Prod.fst ++ [k] := by
  induction m with
  | nil => simp [mapInsert]
  | cons p rest ih =>
      obtain ⟨k0, v0⟩ := p
      by_cases h0 : k0 = k
      · simp [mapFind?, h0] at h
      · simp [mapFind?, h0] at h
        simp [mapInsert, h0, ih h]

theorem mem_mapInsert (m : List (String × Task)) (k : String) (v : Task)
    (p : String × Task) (h : p ∈ mapInsert m k v) : p = (k, v) ∨ p ∈ m := by
  induction m with
  | nil => simpa [mapInsert] using h
  | cons q rest ih =>
      obtain ⟨k0, v0⟩ := q
      by_cases h0 : k0 = k
      · simp [mapInsert, h0] at h
        rcases h with h | h
        · exact Or.inl (by simp [h])
        · exact Or.inr (by simp [h])
      · simp [mapInsert, h0] at h
        rcases h with h | h
        · exact Or.inr (by simp [h])
        · rcases ih h with h' | h'
          · exact Or.inl h'
          · exact Or.inr (by simp [h'])

theorem mapInsert_countP (m : List (String × Task)) (k : String) (v w : Task)
    (p : String × Task → Bool) (h : mapFind? m k = some v) :
    (mapInsert m k w).countP p + (if p (k, v) then 1 else 0) =
      m.countP p + (if p (k, w) then 1 else 0) := by
  induction m with
  | nil => simp [mapFind?] at h
  | cons q rest ih =>
      obtain ⟨k0, v0⟩ := q
      by_cases h0 : k0 = k
      · subst h0
        simp [mapFind?] at h
        subst h
        simp [mapInsert, List.countP_cons]
        omega
      · simp [mapFind?, h0] at h
        simp [mapInsert, h0, List.countP_cons]
        have := ih h
        omega

theorem mapInsert_countP_fresh (m : List (String × Task)) (k : String) (v : Task)
    (p : String × Task → Bool) (h : mapFind? m k = none) :
    (mapInsert m k v).countP p = m.countP p + (if p (k, v) then 1 else 0) := by
  induction m with
  | nil => simp [mapInsert, List.countP_cons]
  | cons q rest ih =>
      obtain ⟨k0, v0⟩ := q
      by_cases h0 : k0 = k
      · simp [mapFind?, h0] at h
      · simp [mapFind?, h0] at h
        simp [mapInsert, h0, List.countP_cons, ih h]
        omega

/-! The calculation functions never return an empty result string. -/

theorem String.mk_ne_empty (l : List Char) (h : l ≠ []) : String.mk l ≠ "" := by
  intro he
  exact h (by simpa using congrArg String.data he)

theorem mulDigits_ne_nil (ds : List Nat) (i c : Nat) (h : ds ≠ []) :
    calculations.mulDigits ds i c ≠ [] := by
  cases ds with
  | nil => exact absurd rfl h
  | cons d rest => simp [calculations.mulDigits]

theorem factLoop_ne_nil (k : Nat) : ∀ i acc, acc ≠ [] →
    calculations.factLoop k i acc ≠ [] := by
  induction k with
  | zero => intro i acc h; simpa [calculations.factLoop] using h
  | succ k ih =>
      intro i acc h
      simpa [calculations.factLoop] using
        ih (i + 1) (calculations.mulDigits acc i 0) (mulDigits_ne_nil acc i 0 h)

theorem factorialStr_ne_empty (n : Nat) : calculations.factorialStr n ≠ "" := by
  unfold calculations.factorialStr
  split_ifs with h
  · intro he
    exact absurd (congrArg String.data he) (by simp)
  · refine String.mk_ne_empty _ ?_
    have h1 : ¬(n = 0 ∨ n = 1) := h
    have := factLoop_ne_nil (n - 1) 2 [1] (by simp)
    simp [this]

theorem addStrings_ne_empty (s1 s2 : String) (h : s1 ≠ "") :
    calculations.addStrings s1 s2 ≠ "" := by
  unfold calculations.addStrings
  refine String.mk_ne_empty _ ?_
  have hd : s1.data ≠ [] := by
    intro he
    exact h (by cases s1; simp at he; simp [he])
  have : s1.data.reverse.map charDigit ≠ [] := by simpa using hd
  rcases hx : s1.data.reverse.map charDigit with _ | ⟨x, xs⟩
  · exact absurd hx this
  · simp [hx, calculations.addRevDigits]

theorem fibLoop_ne_empty (k : Nat) : ∀ prev curr, prev ≠ "" → curr ≠ "" →
    calculations.fibLoop k prev curr ≠ "" := by
  induction k with
  | zero => intro prev curr _ h; simpa [calculations.fibLoop] using h
  | succ k ih =>
      intro prev curr hp hc
      simpa [calculations.fibLoop] using
        ih curr (calculations.addStrings prev curr) hc (addStrings_ne_empty prev curr hp)

theorem fibonacciStr_ne_empty (n : Nat) : calculations.fibonacciStr n ≠ "" := by
  unfold calculations.fibonacciStr
  split_ifs with h0 h1
  · intro he; exact absurd (congrArg String.data he) (by simp)
  · intro he; exact absurd (congrArg String.data he) (by simp)
  · exact fibLoop_ne_empty (n - 1) "0" "1" (by intro he; exact absurd (congrArg String.data he) (by simp)) (by intro he; exact absurd (congrArg String.data he) (by simp))

theorem primeCheckStr_ne_empty (n : Nat) : calculations.primeCheckStr n ≠ "" := by
  unfold calculations.primeCheckStr
  split_ifs <;> (intro he; exact absurd (congrArg String.data he) (by simp))

/-- Every successful calculation produces a non-empty result string. -/
theorem exec_ok_ne_empty (op : String) (input : Int) (r : String)
    (h : calculations.execute_calculation op input = Except.ok r) : r ≠ "" := by
  unfold calculations.execute_calculation at h
  split_ifs at h with hv h1 h2 h3
  · unfold calculations.factorial at h
    split_ifs at h
    simp at h
    exact h ▸ factorialStr_ne_empty _
  · unfold calculations.fibonacci at h
    split_ifs at h
    simp at h
    exact h ▸ fibonacciStr_ne_empty _
  · unfold calculations.prime_check at h
    split_ifs at h
    simp at h
    exact h ▸ primeCheckStr_ne_empty _

/-! Claim C7. -/

/-- Characterisation of `Task::isValid` as a conjunction of conditions
(shared helper). -/
theorem isValid_eq_true_iff (t : Task) :
    t.isValid = true ↔
      (t.id ≠ "" ∧ t.title ≠ "" ∧ t.data.type = "calculation" ∧
        (t.data.operation = "factorial" ∨ t.data.operation = "fibonacci" ∨
          t.data.operation = "prime_check") ∧
        0 ≤ t.data.input ∧ t.data.input ≤ 100000 ∧
        (t.data.operation = "factorial" → t.data.input ≤ 20) ∧
        (t.data.operation = "fibonacci" → t.data.input ≤ 1000) ∧
        (t.data.operation = "prime_check" → 2 ≤ t.data.input)) := by
  constructor
  · intro h
    unfold Task.isValid at h
    split_ifs at h with h1 h2 h3 h4 h5 h6 h7
    push_neg at h1 h2 h3 h4 h5 h6 h7
    exact ⟨h1.1, h1.2, h2, by tauto, by omega, by omega,
      fun hop => by by_contra hgt; exact absurd (h5 hop) (by omega),
      fun hop => by by_contra hgt; exact absurd (h6 hop) (by omega),
      fun hop => by by_contra hgt; exact absurd (h7 hop) (by omega)⟩
  · intro hR
    obtain ⟨hid, htitle, htype, hop, hge, hle, hf, hfib, hp⟩ := hR
    unfold Task.isValid
    split_ifs with h1 h2 h3 h4 h5 h6 h7
    · exact absurd h1 (by tauto)
    · exact absurd htype h2
    · exact absurd hop (by tauto)
    · rcases h4 with h | h <;> omega
    · have := hf h5.1; omega
    · have := hfib h6.1; omega
    · have := hp h7.1; omega
    · rfl

/-- Claim C7: `Task::isValid()` returns true if and only if the id and
title are non-empty, `data.type` is "calculation", `data.operation` is one
of factorial, fibonacci, prime_check, `data.input` lies in [0, 100000], and
the operation-specific bound holds (factorial ≤ 20, fibonacci ≤ 1000,
prime_check ≥ 2); and validity never depends on status, result,
error_message, priority or created_at. -/
theorem C7_isValid (t : Task) :
    (t.isValid = true ↔
      (t.id ≠ "" ∧ t.title ≠ "" ∧ t.data.type = "calculation" ∧
        (t.data.operation = "factorial" ∨ t.data.operation = "fibonacci" ∨
          t.data.operation = "prime_check") ∧
        0 ≤ t.data.input ∧ t.data.input ≤ 100000 ∧
        (t.data.operation = "factorial" → t.data.input ≤ 20) ∧
        (t.data.operation = "fibonacci" → t.data.input ≤ 1000) ∧
        (t.data.operation = "prime_check" → 2 ≤ t.data.input))) ∧
    (∀ (st : TaskStatus) (r e : String) (p : Priority) (c : Nat),
      Task.isValid
        { t with
          status := st
          result := r
          error_message := e
          priority := p
          created_at := c } = t.isValid) :=
  ⟨isValid_eq_true_iff t, fun _ _ _ _ _ => rfl⟩

/-- A concrete valid task for the C7 witness. -/
def tC7 : Task := Task.create "a" "t" Priority.MEDIUM
  { type := "calculation", input := 5, operation := "factorial" }

/-- Witness for C7 at a concrete task. -/
theorem C7_isValid_witness : tC7.isValid = true :=
  (C7_isValid tC7).1.mpr (by decide)

/-! Claim C1. -/

/-- Claim C1: `Worker::completeTask` succeeds only when the stored task is
PROCESSING with a non-empty result — in which case the record becomes
COMPLETED and the completed counter is incremented exactly once (nothing
else changes); a second call on the now-COMPLETED task fails and changes
nothing; and for a stored task in PENDING, COMPLETED, or
FAILED-with-empty-error state the call fails with no side effects at
all. -/
theorem C1_completeTask (w : Worker) (id : String) :
    (∀ t, mapFind? w.task_storage id = some t →
      ((t.status = TaskStatus.PROCESSING ∧ t.result ≠ "" →
          Worker.completeTask w id =
            ({ w with
                task_storage := mapInsert w.task_storage id
                  (t.setStatus TaskStatus.COMPLETED),
                tasks_completed := w.tasks_completed + 1 }, true) ∧
          Worker.completeTask (Worker.completeTask w id).1 id =
            ((Worker.completeTask w id).1, false)) ∧
        (t.status = TaskStatus.PENDING ∨ t.status = TaskStatus.COMPLETED ∨
            (t.status = TaskStatus.FAILED ∧ t.error_message = "") →
          Worker.completeTask w id = (w, false)))) ∧
    ((Worker.completeTask w id).2 = true →
      ∃ t, mapFind? w.task_storage id = some t ∧
        t.status = TaskStatus.PROCESSING ∧ t.result ≠ "") := by
  constructor
  · intro t ht
    constructor
    · intro hok
      have h1 : Worker.completeTask w id =
          ({ w with
              task_storage := mapInsert w.task_storage id
                (t.setStatus TaskStatus.COMPLETED),
              tasks_completed := w.tasks_completed + 1 }, true) := by
        simp [Worker.completeTask, ht, hok.1, hok.2]
      refine ⟨h1, ?_⟩
      rw [h1]
      simp [Worker.completeTask, mapFind?_insert_self, Task.setStatus]
    · intro hcase
      have hns : ¬(t.status = TaskStatus.PROCESSING) := by
        rcases hcase with h | h | ⟨h, _⟩ <;> simp [h]
      simp [Worker.completeTask, ht, hns]
  · intro hb
    cases hfind : mapFind? w.task_storage id with
    | none => simp [Worker.completeTask, hfind] at hb
    | some t =>
        simp only [Worker.completeTask, hfind] at hb
        split_ifs at hb with h1 h2
        exact ⟨t, rfl, h1.1, h1.2⟩

/-- A concrete PROCESSING task with a result, for the C1 witness. -/
def tC1 : Task :=
  { id := "a", title := "t", priority := Priority.MEDIUM, created_at := 0,
    data := { type := "calculation", input := 5, operation := "factorial" },
    status := TaskStatus.PROCESSING, result := "120", error_message := "" }

/-- A worker holding `tC1`, for the C1 witness. -/
def wC1 : Worker :=
  { task_queue := [], task_storage := [("a", tC1)], tasks_processed := 1,
    tasks_completed := 0, tasks_failed := 0 }

/-- Witness for C1: completing `tC1` succeeds once and fails the second
time without further changes. -/
theorem C1_completeTask_witness :
    Worker.completeTask wC1 "a" =
      ({ wC1 with
          task_storage := mapInsert wC1.task_storage "a"
            (tC1.setStatus TaskStatus.COMPLETED),
          tasks_completed := wC1.tasks_completed + 1 }, true) ∧
    Worker.completeTask (Worker.completeTask wC1 "a").1 "a" =
      ((Worker.completeTask wC1 "a").1, false) :=
  ((C1_completeTask wC1 "a").1 tC1 (by decide)).1 (by decide)

/-! Claim C2. -/

/-- Claim C2: `Worker::processTask` first persists the PROCESSING state (so
a concurrent `getTask` observes status PROCESSING with the task's original,
empty, result); then, on calculation success it stores the result string
with status still PROCESSING (never COMPLETED) and bumps only the processed
counter; on a calculation exception it stores the message as error_message
with status FAILED and bumps the processed and failed counters; in the
success case the completed counter is bumped exactly once, by the later
explicit `completeTask`. -/
theorem C2_processTask (w : Worker) (t : Task) :
    (Worker.getTask (Worker.processTaskMid w t) t.id =
        some (t.setStatus TaskStatus.PROCESSING) ∧
      (t.setStatus TaskStatus.PROCESSING).status = TaskStatus.PROCESSING ∧
      (t.setStatus TaskStatus.PROCESSING).result = t.result) ∧
    (∀ r, calculations.execute_calculation t.data.operation t.data.input =
        Except.ok r →
      Worker.processTask w t =
        { w with
            task_storage := mapInsert
              (mapInsert w.task_storage t.id (t.setStatus TaskStatus.PROCESSING))
              t.id ((t.setStatus TaskStatus.PROCESSING).setResult r),
            tasks_processed := w.tasks_processed + 1 } ∧
      Worker.getTask (Worker.processTask w t) t.id =
        some ((t.setStatus TaskStatus.PROCESSING).setResult r) ∧
      ((t.setStatus TaskStatus.PROCESSING).setResult r).status =
        TaskStatus.PROCESSING ∧
      (Worker.processTask w t).tasks_processed = w.tasks_processed + 1 ∧
      (Worker.processTask w t).tasks_completed = w.tasks_completed ∧
      (Worker.processTask w t).tasks_failed = w.tasks_failed ∧
      (Worker.completeTask (Worker.processTask w t) t.id).2 = true ∧
      (Worker.completeTask (Worker.processTask w t) t.id).1.tasks_completed =
        w.tasks_completed + 1) ∧
    (∀ e, calculations.execute_calculation t.data.operation t.data.input =
        Except.error e →
      Worker.getTask (Worker.processTask w t) t.id =
        some (((t.setStatus TaskStatus.PROCESSING).setErrorMessage e).setStatus
          TaskStatus.FAILED) ∧
      (((t.setStatus TaskStatus.PROCESSING).setErrorMessage e).setStatus
          TaskStatus.FAILED).status = TaskStatus.FAILED ∧
      (((t.setStatus TaskStatus.PROCESSING).setErrorMessage e).setStatus
          TaskStatus.FAILED).error_message = e ∧
      (Worker.processTask w t).tasks_processed = w.tasks_processed + 1 ∧
      (Worker.processTask w t).tasks_failed = w.tasks_failed + 1 ∧
      (Worker.processTask w t).tasks_completed = w.tasks_completed) := by
  refine ⟨⟨?_, rfl, rfl⟩, ?_, ?_⟩
  · simp [Worker.getTask, Worker.processTaskMid, mapFind?_insert_self]
  · intro r hr
    have hrun : Worker.processTask w t =
        { w with
            task_storage := mapInsert
              (mapInsert w.task_storage t.id (t.setStatus TaskStatus.PROCESSING))
              t.id ((t.setStatus TaskStatus.PROCESSING).setResult r),
            tasks_processed := w.tasks_processed + 1 } := by
      unfold Worker.processTask Worker.finishTask Worker.processTaskMid
      rw [show calculations.execute_calculation
          (t.setStatus TaskStatus.PROCESSING).data.operation
          (t.setStatus TaskStatus.PROCESSING).data.input = Except.ok r from hr]
      rfl
    have hr' : r ≠ "" := exec_ok_ne_empty _ _ _ hr
    refine ⟨hrun, ?_, rfl, ?_, ?_, ?_, ?_, ?_⟩
    · simp [Worker.getTask, hrun, mapFind?_insert_self]
    · rw [hrun]
    · rw [hrun]
    · rw [hrun]
    · simp [Worker.completeTask, hrun, mapFind?_insert_self, Task.setStatus,
        Task.setResult, hr']
    · simp [Worker.completeTask, hrun, mapFind?_insert_self, Task.setStatus,
        Task.setResult, hr']
  · intro e he
    have hrun : Worker.processTask w t =
        { w with
            task_storage := mapInsert
              (mapInsert w.task_storage t.id (t.setStatus TaskStatus.PROCESSING))
              t.id (((t.setStatus TaskStatus.PROCESSING).setErrorMessage e).setStatus
                TaskStatus.FAILED),
            tasks_failed := w.tasks_failed + 1,
            tasks_processed := w.tasks_processed + 1 } := by
      unfold Worker.processTask Worker.finishTask Worker.processTaskMid
      rw [show calculations.execute_calculation
          (t.setStatus TaskStatus.PROCESSING).data.operation
          (t.setStatus TaskStatus.PROCESSING).data.input = Except.error e from he]
      rfl
    refine ⟨?_, rfl, rfl, ?_, ?_, ?_⟩
    · simp [Worker.getTask, hrun, mapFind?_insert_self]
    · rw [hrun]
    · rw [hrun]
    · rw [hrun]

/-- A concrete fresh factorial task for the C2 witness. -/
def tC2 : Task := Task.create "b" "t" Priority.MEDIUM
  { type := "calculation", input := 5, operation := "factorial" }

/-- Witness for C2: processing `tC2` stores result "120" at status
PROCESSING and bumps the processed counter. -/
theorem C2_processTask_witness :
    Worker.getTask (Worker.processTask Worker.init tC2) tC2.id =
      some ((tC2.setStatus TaskStatus.PROCESSING).setResult "120") ∧
    (Worker.processTask Worker.init tC2).tasks_processed =
      Worker.init.tasks_processed + 1 :=
  ⟨((C2_processTask Worker.init tC2).2.1 "120" (by decide)).2.1,
   ((C2_processTask Worker.init tC2).2.1 "120" (by decide)).2.2.2.1⟩

/-! Claim C6. -/

/-- Characterisation of `TaskOrchestrator::validateTaskInput` (shared
helper): `Task::isValid` together with the duplicated operation and
per-operation range checks. -/
theorem validateTaskInput_eq_true_iff (t : Task) :
    TaskOrchestrator.validateTaskInput t = true ↔
      (t.isValid = true ∧
        (t.data.operation = "factorial" ∨ t.data.operation = "fibonacci" ∨
          t.data.operation = "prime_check") ∧
        (t.data.operation = "factorial" → 0 ≤ t.data.input ∧ t.data.input ≤ 20) ∧
        (t.data.operation = "fibonacci" → 0 ≤ t.data.input ∧ t.data.input ≤ 1000) ∧
        (t.data.operation = "prime_check" → 2 ≤ t.data.input)) := by
  constructor
  · intro h
    unfold TaskOrchestrator.validateTaskInput at h
    split_ifs at h with h1 h2 h3 h4 h5
    push_neg at h2 h3 h4 h5
    exact ⟨by simpa using h1, by tauto, h3, h4, h5⟩
  · intro hR
    obtain ⟨hv, hop, hf, hfib, hp⟩ := hR
    unfold TaskOrchestrator.validateTaskInput
    split_ifs with h1 h2 h3 h4 h5
    · rw [hv] at h1; exact absurd h1 (by simp)
    · exact absurd hop (by tauto)
    · obtain ⟨ho, hr⟩ := h3
      have := hf ho
      rcases hr with h | h <;> omega
    · obtain ⟨ho, hr⟩ := h4
      have := hfib ho
      rcases hr with h | h <;> omega
    · obtain ⟨ho, hr⟩ := h5
      have := hp ho
      omega
    · rfl

/-- Claim C6: `TaskOrchestrator::createTask` either raises a validation
error — in which case the orchestrator state (all workers and the
round-robin counter) is unchanged and no id is returned — or returns the
task's id after handing the task to exactly one worker (the round-robin
selected one; every other worker is untouched and the counter advances by
one); and it accepts exactly when `Task::isValid()` holds together with
the orchestrator-level re-check of the operation kind and the per-operation
input bounds. -/
theorem C6_createTask (o : TaskOrchestrator) (t : Task) (hW : 0 < o.num_workers) :
    ((o.createTask t).2 = Except.ok t.id ↔
      (t.isValid = true ∧
        (t.data.operation = "factorial" ∨ t.data.operation = "fibonacci" ∨
          t.data.operation = "prime_check") ∧
        (t.data.operation = "factorial" → 0 ≤ t.data.input ∧ t.data.input ≤ 20) ∧
        (t.data.operation = "fibonacci" → 0 ≤ t.data.input ∧ t.data.input ≤ 1000) ∧
        (t.data.operation = "prime_check" → 2 ≤ t.data.input))) ∧
    (∀ s, (o.createTask t).2 = Except.ok s → s = t.id) ∧
    (∀ e, (o.createTask t).2 = Except.error e → (o.createTask t).1 = o) ∧
    ((o.createTask t).2 = Except.ok t.id →
      (o.createTask t).1.current_worker = o.current_worker + 1 ∧
      (o.createTask t).1.workers (o.current_worker % o.num_workers) =
        (o.workers (o.current_worker % o.num_workers)).addTask t ∧
      (∀ j, j ≠ o.current_worker % o.num_workers →
        (o.createTask t).1.workers j = o.workers j)) := by
  have h0 : ¬(o.num_workers = 0) := by omega
  cases hvb : TaskOrchestrator.validateTaskInput t with
  | false =>
      have hrun : o.createTask t = (o, Except.error "Invalid task input") := by
        simp [TaskOrchestrator.createTask, hvb]
      refine ⟨?_, ?_, ?_, ?_⟩
      · rw [hrun]
        constructor
        · intro h; simp at h
        · intro hR
          exfalso
          have := (validateTaskInput_eq_true_iff t).mpr hR
          rw [hvb] at this
          exact absurd this (by simp)
      · intro s hs; rw [hrun] at hs; simp at hs
      · intro e he; rw [hrun]
      · intro h; rw [hrun] at h; simp at h
  | true =>
      have hrun : o.createTask t =
          ({ num_workers := o.num_workers,
             workers := fun i => if i = o.current_worker % o.num_workers
               then (o.workers i).addTask t else o.workers i,
             current_worker := o.current_worker + 1 }, Except.ok t.id) := by
        simp [TaskOrchestrator.createTask, TaskOrchestrator.distributeTask,
          TaskOrchestrator.selectWorker, hvb, h0]
      refine ⟨?_, ?_, ?_, ?_⟩
      · constructor
        · intro _; exact (validateTaskInput_eq_true_iff t).mp hvb
        · intro _; rw [hrun]
      · intro s hs
        rw [hrun] at hs
        simp at hs
        exact hs.symm
      · intro e he; rw [hrun] at he; simp at he
      · intro _
        rw [hrun]
        refine ⟨rfl, ?_, ?_⟩
        · simp
        · intro j hj; simp [hj]

/-- A concrete valid task for the C6 witness. -/
def tC6 : Task := Task.create "c6" "t" Priority.HIGH
  { type := "calculation", input := 17, operation := "prime_check" }

/-- Witness for C6 on a fresh two-worker orchestrator: the valid task is
accepted with its id. -/
theorem C6_createTask_witness :
    ((TaskOrchestrator.init 2).createTask tC6).2 = Except.ok tC6.id :=
  (C6_createTask (TaskOrchestrator.init 2) tC6 (by decide)).1.mpr (by decide)

/-! Claim C10. -/

/-- A create payload that injects `status = "processing"` and a non-empty
`result` (part_001 of the repository scripts probes exactly this kind of
payload). -/
def jC10 : TaskJson :=
  { id := "inj-1", title := "Injected", priority := some 2,
    data := { type := "calculation", input := 5, operation := "factorial" },
    status := some "processing", result := some "42", error := none }

/-- The task built by `Task::from_json` from the injecting payload. -/
def tC10 : Task := Task.from_json jC10

/-- A fresh one-worker orchestrator for the C10 run. -/
def oC10 : TaskOrchestrator := TaskOrchestrator.init 1

/-- Claim C10: there is an accepted create payload that skips the normal
lifecycle: `Task::from_json` installs the caller-supplied "processing"
status and non-empty result verbatim, neither `Task::isValid` nor
`TaskOrchestrator::validateTaskInput` rejects it, `createTask` stores it
as-is, and `Worker::completeTask` then succeeds on it (record COMPLETED,
completed counter incremented) while the worker has processed nothing. -/
theorem C10_injection :
    tC10.status = TaskStatus.PROCESSING ∧ tC10.result = "42" ∧
    tC10.isValid = true ∧ TaskOrchestrator.validateTaskInput tC10 = true ∧
    (oC10.createTask tC10).2 = Except.ok "inj-1" ∧
    Worker.getTask ((oC10.createTask tC10).1.workers 0) "inj-1" = some tC10 ∧
    ((oC10.createTask tC10).1.workers 0).tasks_processed = 0 ∧
    (Worker.completeTask ((oC10.createTask tC10).1.workers 0) "inj-1").2 = true ∧
    (Worker.getTask
        (Worker.completeTask ((oC10.createTask tC10).1.workers 0) "inj-1").1
        "inj-1").map Task.status = some TaskStatus.COMPLETED ∧
    (Worker.completeTask ((oC10.createTask tC10).1.workers 0) "inj-1").1.tasks_completed =
      ((oC10.createTask tC10).1.workers 0).tasks_completed + 1 := by
  decide

/-! Claim C3. -/

/-- A task whose calculation raises (`prime_check` of 1 fails the
calculation-level validation inside `execute_calculation`). -/
def tC3 : Task := Task.create "cex" "Bad" Priority.MEDIUM
  { type := "calculation", input := 1, operation := "prime_check" }

/-- Counterexample to claim C3: immediately after a failed computation —
before any `completeTask` call — `getTask` reports the task as FAILED, not
as PROCESSING with an empty result. -/
theorem C3_counterexample :
    (Worker.getTask (Worker.processTask Worker.init tC3) "cex").map Task.status =
        some TaskStatus.FAILED ∧
    ¬((Worker.getTask (Worker.processTask Worker.init tC3) "cex").map Task.status =
        some TaskStatus.PROCESSING) := by
  decide

/-- Claim C3 as amended: a task whose calculation raises during processing
is marked FAILED immediately by `processTask` itself (the message stored in
error_message, the failed counter incremented); a later `completeTask` on
it returns failure and changes nothing. -/
theorem C3_amended_eager_failure (w : Worker) (t : Task) (e : String)
    (he : calculations.execute_calculation t.data.operation t.data.input =
      Except.error e) :
    (Worker.getTask (Worker.processTask w t) t.id).map Task.status =
      some TaskStatus.FAILED ∧
    (Worker.getTask (Worker.processTask w t) t.id).map Task.error_message = some e ∧
    (Worker.processTask w t).tasks_failed = w.tasks_failed + 1 ∧
    Worker.completeTask (Worker.processTask w t) t.id = (Worker.processTask w t, false) := by
  have hrun : Worker.processTask w t =
      { w with
          task_storage := mapInsert
            (mapInsert w.task_storage t.id (t.setStatus TaskStatus.PROCESSING))
            t.id (((t.setStatus TaskStatus.PROCESSING).setErrorMessage e).setStatus
              TaskStatus.FAILED),
          tasks_failed := w.tasks_failed + 1,
          tasks_processed := w.tasks_processed + 1 } := by
    unfold Worker.processTask Worker.finishTask Worker.processTaskMid
    rw [show calculations.execute_calculation
        (t.setStatus TaskStatus.PROCESSING).data.operation
        (t.setStatus TaskStatus.PROCESSING).data.input = Except.error e from he]
    rfl
  refine ⟨?_, ?_, ?_, ?_⟩
  · simp [Worker.getTask, hrun, mapFind?_insert_self, Task.setStatus,
      Task.setErrorMessage]
  · simp [Worker.getTask, hrun, mapFind?_insert_self, Task.setStatus,
      Task.setErrorMessage]
  · rw [hrun]
  · conv_lhs => rw [hrun]
    simp [Worker.completeTask, mapFind?_insert_self, Task.setStatus, hrun]

/-- Witness for the amended C3 at the concrete failing task. -/
theorem C3_amended_witness :
    (Worker.getTask (Worker.processTask Worker.init tC3) tC3.id).map Task.status =
      some TaskStatus.FAILED ∧
    (Worker.processTask Worker.init tC3).tasks_failed = Worker.init.tasks_failed + 1 :=
  ⟨(C3_amended_eager_failure Worker.init tC3 "Invalid operation or input"
      (by decide)).1,
   (C3_amended_eager_failure Worker.init tC3 "Invalid operation or input"
      (by decide)).2.2.1⟩

/-! Claim C5. -/

/-- A sequence of `createTask` calls (the submission loop of a caller). -/
def runCreates (o : TaskOrchestrator) (ts : List Task) : TaskOrchestrator :=
  ts.foldl (fun acc t => (acc.createTask t).1) o

/-- The sub-sequence of `ts` that round-robin assignment starting at
counter `c` hands to worker `j` (out of `W`). -/
def assignedSlice (W : Nat) : List Task → Nat → Nat → List Task
  | [], _, _ => []
  | t :: ts, c, j => (if c % W = j then [t] else []) ++ assignedSlice W ts (c + 1) j

/-- Counts how many of the next `n` round-robin picks starting at counter
`c` land on worker `j`. -/
def modCount (W : Nat) : Nat → Nat → Nat → Nat
  | _, 0, _ => 0
  | c, n + 1, j => (if c % W = j then 1 else 0) + modCount W (c + 1) n j

/-- Helper: the orchestrator state after one accepted `createTask`. -/
theorem createTask_fst_state (o : TaskOrchestrator) (t : Task)
    (hW : 0 < o.num_workers) (hv : TaskOrchestrator.validateTaskInput t = true) :
    (o.createTask t).1 =
      { num_workers := o.num_workers,
        workers := fun i => if i = o.current_worker % o.num_workers
          then (o.workers i).addTask t else o.workers i,
        current_worker := o.current_worker + 1 } := by
  have h0 : ¬(o.num_workers = 0) := by omega
  simp [TaskOrchestrator.createTask, TaskOrchestrator.distributeTask,
    TaskOrchestrator.selectWorker, hv, h0]

/-- Helper: full characterisation of a run of accepted creates — the worker
count is unchanged, the counter advances by one per call, and each worker's
queue receives exactly its round-robin slice in order. -/
theorem runCreates_char : ∀ (ts : List Task) (o : TaskOrchestrator),
    0 < o.num_workers →
    (∀ t ∈ ts, TaskOrchestrator.validateTaskInput t = true) →
    (runCreates o ts).num_workers = o.num_workers ∧
    (runCreates o ts).current_worker = o.current_worker + ts.length ∧
    (∀ j, ((runCreates o ts).workers j).task_queue =
      (o.workers j).task_queue ++
        assignedSlice o.num_workers ts o.current_worker j) := by
  intro ts
  induction ts with
  | nil =>
      intro o hW hval
      simp [runCreates, assignedSlice]
  | cons t ts ih =>
      intro o hW hval
      have hv : TaskOrchestrator.validateTaskInput t = true := hval t (by simp)
      have hstep : runCreates o (t :: ts) = runCreates (o.createTask t).1 ts := rfl
      rw [hstep, createTask_fst_state o t hW hv]
      obtain ⟨ha, hb, hc⟩ := ih
        { num_workers := o.num_workers,
          workers := fun i => if i = o.current_worker % o.num_workers
            then (o.workers i).addTask t else o.workers i,
          current_worker := o.current_worker + 1 }
        hW (fun t' ht' => hval t' (by simp [ht']))
      refine ⟨ha, ?_, ?_⟩
      · rw [hb]
        simp
        omega
      · intro j
        rw [hc j]
        by_cases hj : o.current_worker % o.num_workers = j
        · simp [hj, Worker.addTask, assignedSlice]
        · have hj' : ¬(j = o.current_worker % o.num_workers) := fun h => hj h.symm
          simp [hj, hj', assignedSlice]

/-- Helper: the slice length is the round-robin pick count. -/
theorem assignedSlice_length (W : Nat) : ∀ (ts : List Task) (c j : Nat),
    (assignedSlice W ts c j).length = modCount W c ts.length j := by
  intro ts
  induction ts with
  | nil => intro c j; simp [assignedSlice, modCount]
  | cons t ts ih =>
      intro c j
      simp only [assignedSlice, modCount, List.length_append, ih]
      split_ifs <;> simp

/-- Helper: pick counts add over a split of the run. -/
theorem modCount_add (W : Nat) : ∀ (a : Nat) (c b j : Nat),
    modCount W c (a + b) j = modCount W c a j + modCount W (c + a) b j := by
  intro a
  induction a with
  | zero => intro c b j; simp [modCount]
  | succ a ih =>
      intro c b j
      have h1 : a + 1 + b = (a + b) + 1 := by omega
      rw [h1]
      show (if c % W = j then 1 else 0) + modCount W (c + 1) (a + b) j =
        ((if c % W = j then 1 else 0) + modCount W (c + 1) a j) +
          modCount W (c + (a + 1)) b j
      rw [ih (c + 1) b j]
      have h2 : c + 1 + a = c + (a + 1) := by omega
      rw [h2]
      omega

/-- Helper: peeling the last pick instead of the first. -/
theorem modCount_succ_last (W : Nat) : ∀ (n c j : Nat),
    modCount W c (n + 1) j = modCount W c n j + (if (c + n) % W = j then 1 else 0) := by
  intro n
  induction n with
  | zero => intro c j; simp [modCount]
  | succ n ih =>
      intro c j
      show (if c % W = j then 1 else 0) + modCount W (c + 1) (n + 1) j =
        ((if c % W = j then 1 else 0) + modCount W (c + 1) n j) +
          (if (c + (n + 1)) % W = j then 1 else 0)
      rw [ih (c + 1) j]
      have h2 : c + 1 + n = c + (n + 1) := by omega
      rw [h2]
      omega

/-- Helper: the pick count as a filtered-range cardinality. -/
theorem modCount_eq_card (W : Nat) : ∀ (n c j : Nat),
    modCount W c n j = ((Finset.range n).filter (fun i => (c + i) % W = j)).card := by
  intro n
  induction n with
  | zero => intro c j; simp [modCount]
  | succ n ih =>
      intro c j
      rw [modCount_succ_last, ih, Finset.range_succ, Finset.filter_insert]
      split_ifs with h
      · rw [Finset.card_insert_of_not_mem (by simp)]
      · simp

/-- Helper: among any `W` consecutive picks each worker `j < W` is picked
exactly once. -/
theorem modCount_cycle (W c j : Nat) (hj : j < W) : modCount W c W j = 1 := by
  have hW : 0 < W := lt_of_le_of_lt (Nat.zero_le j) hj
  rw [modCount_eq_card]
  apply Finset.card_eq_one.mpr
  refine ⟨(j + W - c % W) % W, ?_⟩
  have haW : c % W < W := Nat.mod_lt _ hW
  have hi0W : (j + W - c % W) % W < W := Nat.mod_lt _ hW
  have hkey : (c + (j + W - c % W) % W) % W = j := by
    have hle1 : c % W ≤ c := Nat.mod_le c W
    have hdm : W * (c / W) + c % W = c := Nat.div_add_mod c W
    have hf : W * (c / W + 1) = W * (c / W) + W := by ring
    have hX : c + (j + W - c % W) = j + W * (c / W + 1) := by omega
    calc (c + (j + W - c % W) % W) % W
        = (c + (j + W - c % W)) % W := Nat.add_mod_mod _ _ _
      _ = (j + W * (c / W + 1)) % W := by rw [hX]
      _ = j % W := Nat.add_mul_mod_self_left _ _ _
      _ = j := Nat.mod_eq_of_lt hj
  ext x
  simp only [Finset.mem_filter, Finset.mem_range, Finset.mem_singleton]
  constructor
  · rintro ⟨hx, hmod⟩
    have hcc : (c + x) % W = (c + (j + W - c % W) % W) % W := by rw [hmod, hkey]
    have hxe : x % W = ((j + W - c % W) % W) % W :=
      Nat.ModEq.add_left_cancel' c hcc
    rwa [Nat.mod_eq_of_lt hx, Nat.mod_eq_of_lt hi0W] at hxe
  · rintro rfl
    exact ⟨hi0W, hkey⟩

/-- Helper: a fair run of `k * W` picks from counter 0 hits each worker
exactly `k` times. -/
theorem modCount_mul (W k j : Nat) (hj : j < W) : modCount W 0 (k * W) j = k := by
  induction k with
  | zero => simp [modCount]
  | succ k ih =>
      have h1 : (k + 1) * W = k * W + W := by ring
      rw [h1, modCount_add, ih, modCount_cycle W (0 + k * W) j hj]

/-- Claim C5: starting from a fresh orchestrator with `W ≥ 1` workers, a
run of accepted `createTask` calls advances the round-robin counter by one
per call; the i-th accepted task is appended to the queue of worker
`i mod W` and no other worker changes at that step; and a run of `k * W`
accepted tasks leaves exactly `k` tasks in every worker's queue —
independently of task priority and worker load. -/
theorem C5_roundRobin (W k : Nat) (hW : 0 < W) (ts : List Task)
    (hval : ∀ t ∈ ts, TaskOrchestrator.validateTaskInput t = true) :
    ((runCreates (TaskOrchestrator.init W) ts).current_worker = ts.length) ∧
    (∀ i, ∀ hi : i < ts.length,
      (runCreates (TaskOrchestrator.init W) (ts.take i)).current_worker = i ∧
      ((runCreates (TaskOrchestrator.init W) (ts.take (i + 1))).workers (i % W)).task_queue =
        ((runCreates (TaskOrchestrator.init W) (ts.take i)).workers (i % W)).task_queue
          ++ [ts.get ⟨i, hi⟩] ∧
      (∀ j, j ≠ i % W →
        (runCreates (TaskOrchestrator.init W) (ts.take (i + 1))).workers j =
          (runCreates (TaskOrchestrator.init W) (ts.take i)).workers j)) ∧
    (ts.length = k * W →
      ∀ j, j < W →
        ((runCreates (TaskOrchestrator.init W) ts).workers j).task_queue.length = k) := by
  have hinitW : (TaskOrchestrator.init W).num_workers = W := rfl
  have hchar := runCreates_char ts (TaskOrchestrator.init W) (by simpa [hinitW]) hval
  refine ⟨by simpa [TaskOrchestrator.init] using hchar.2.1, ?_, ?_⟩
  · intro i hi
    have hvt : ∀ t ∈ ts.take i, TaskOrchestrator.validateTaskInput t = true :=
      fun t ht => hval t (List.mem_of_mem_take ht)
    have hchar_i := runCreates_char (ts.take i) (TaskOrchestrator.init W)
      (by simpa [hinitW]) hvt
    have hcount : (runCreates (TaskOrchestrator.init W) (ts.take i)).current_worker = i := by
      have := hchar_i.2.1
      simpa [TaskOrchestrator.init, List.length_take,
        Nat.min_eq_left (Nat.le_of_lt hi)] using this
    have hWi : 0 < (runCreates (TaskOrchestrator.init W) (ts.take i)).num_workers := by
      rw [hchar_i.1]; simpa [hinitW]
    have htake : ts.take (i + 1) = ts.take i ++ [ts.get ⟨i, hi⟩] := by
      rw [List.take_succ]
      simp [List.getElem?_eq_getElem hi, List.get_eq_getElem]
    have hstep : runCreates (TaskOrchestrator.init W) (ts.take (i + 1)) =
        ((runCreates (TaskOrchestrator.init W) (ts.take i)).createTask
          (ts.get ⟨i, hi⟩)).1 := by
      unfold runCreates
      rw [htake, List.foldl_append]
      rfl
    have hvi : TaskOrchestrator.validateTaskInput (ts.get ⟨i, hi⟩) = true :=
      hval _ (List.get_mem ts i hi)
    have hone := createTask_fst_state (runCreates (TaskOrchestrator.init W) (ts.take i))
      (ts.get ⟨i, hi⟩) hWi hvi
    refine ⟨hcount, ?_, ?_⟩
    · rw [hstep, hone]
      simp [hcount, hchar_i.1, hinitW, Worker.addTask]
    · intro j hj
      rw [hstep, hone]
      simp only [hcount, hchar_i.1, hinitW]
      simp [hj]
  · intro hlen j hjW
    rw [hchar.2.2 j]
    simp [TaskOrchestrator.init, Worker.init, assignedSlice_length, hinitW, hlen,
      modCount_mul W k j hjW]

/-- Two valid tasks for the C5 witness. -/
def tC5a : Task := Task.create "c5a" "t" Priority.LOW
  { type := "calculation", input := 3, operation := "factorial" }

/-- Second valid task for the C5 witness. -/
def tC5b : Task := Task.create "c5b" "t" Priority.HIGH
  { type := "calculation", input := 10, operation := "fibonacci" }

/-- Witness for C5: two tasks over two workers land one per worker. -/
theorem C5_roundRobin_witness :
    ((runCreates (TaskOrchestrator.init 2) [tC5a, tC5b]).workers 0).task_queue.length = 1 ∧
    ((runCreates (TaskOrchestrator.init 2) [tC5a, tC5b]).workers 1).task_queue.length = 1 :=
  ⟨(C5_roundRobin 2 1 (by decide) [tC5a, tC5b] (by decide)).2.2 (by decide) 0 (by decide),
   (C5_roundRobin 2 1 (by decide) [tC5a, tC5b] (by decide)).2.2 (by decide) 1 (by decide)⟩

/-! Claim C9 — infrastructure: correctness of the little-endian decimal
digit lists used by the C++ big-number arithmetic. -/

/-- Digit lists without a leading zero (the last digit of the little-endian
list, i.e. the most significant digit, is not zero; the empty list is
allowed). -/
def NormDigits (d : List Nat) : Prop := d.getLast? ≠ some 0

theorem decDigitsFuel_congr : ∀ (f g n : Nat), n ≤ f → n ≤ g →
    decDigitsFuel f n = decDigitsFuel g n := by
  intro f
  induction f with
  | zero =>
      intro g n hf hg
      have : n = 0 := by omega
      subst this
      cases g <;> simp [decDigitsFuel]
  | succ f ih =>
      intro g n hf hg
      by_cases h0 : n = 0
      · subst h0
        cases g <;> simp [decDigitsFuel]
      · have hn : 0 < n := Nat.pos_of_ne_zero h0
        obtain ⟨g', rfl⟩ : ∃ g', g = g' + 1 := ⟨g - 1, by omega⟩
        have hdiv : n / 10 < n := Nat.div_lt_self hn (by norm_num)
        simp only [decDigitsFuel, h0, if_neg]
        rw [ih g' (n / 10) (by omega) (by omega)]

theorem decDigits_succ (n : Nat) (h : n ≠ 0) :
    decDigits n = n % 10 :: decDigits (n / 10) := by
  have hn : 0 < n := Nat.pos_of_ne_zero h
  obtain ⟨m, rfl⟩ : ∃ m, n = m + 1 := ⟨n - 1, by omega⟩
  show decDigitsFuel (m + 1) (m + 1) = _
  simp only [decDigitsFuel, h, if_neg]
  rw [decDigitsFuel_congr m ((m + 1) / 10) ((m + 1) / 10)
    (by omega) (le_refl _)]
  rfl

theorem decDigits_eq_nil_iff (n : Nat) : decDigits n = [] ↔ n = 0 := by
  constructor
  · intro h
    by_contra h0
    rw [decDigits_succ n h0] at h
    simp at h
  · intro h; subst h; rfl

theorem ofDigitsRev_decDigits (n : Nat) : ofDigitsRev (decDigits n) = n := by
  induction n using Nat.strong_induction_on with
  | _ n ih =>
      by_cases h : n = 0
      · subst h; rfl
      · rw [decDigits_succ n h]
        have := ih (n / 10) (Nat.div_lt_self (Nat.pos_of_ne_zero h) (by norm_num))
        simp [ofDigitsRev, this]
        omega

theorem decDigits_lt10 (n : Nat) : ∀ d ∈ decDigits n, d < 10 := by
  induction n using Nat.strong_induction_on with
  | _ n ih =>
      by_cases h : n = 0
      · subst h; intro d hd; simp [decDigits, decDigitsFuel] at hd
      · rw [decDigits_succ n h]
        intro d hd
        rcases List.mem_cons.mp hd with h1 | h1
        · omega
        · exact ih (n / 10) (Nat.div_lt_self (Nat.pos_of_ne_zero h) (by norm_num)) d h1

theorem normDigits_nil : NormDigits [] := by
  simp [NormDigits]

theorem normDigits_singleton (x : Nat) : NormDigits [x] ↔ x ≠ 0 := by
  simp [NormDigits]

theorem normDigits_cons_of_ne_nil (a : Nat) (l : List Nat) (h : l ≠ []) :
    NormDigits (a :: l) ↔ NormDigits l := by
  obtain ⟨b, l', rfl⟩ : ∃ b l', l = b :: l' := by
    cases l with
    | nil => exact absurd rfl h
    | cons b l' => exact ⟨b, l', rfl⟩
  simp [NormDigits, List.getLast?_cons_cons]

theorem normDigits_of_cons (a : Nat) (l : List Nat) (h : NormDigits (a :: l)) :
    NormDigits l := by
  cases l with
  | nil => exact normDigits_nil
  | cons b l' => exact (normDigits_cons_of_ne_nil a (b :: l') (by simp)).mp h

theorem decDigits_norm (n : Nat) : NormDigits (decDigits n) := by
  induction n using Nat.strong_induction_on with
  | _ n ih =>
      by_cases h : n = 0
      · subst h; exact normDigits_nil
      · rw [decDigits_succ n h]
        by_cases h10 : n / 10 = 0
        · rw [h10]
          have : decDigits 0 = [] := rfl
          rw [this]
          rw [normDigits_singleton]
          omega
        · rw [normDigits_cons_of_ne_nil _ _
            ((not_iff_not.mpr (decDigits_eq_nil_iff (n / 10))).mpr h10)]
          exact ih (n / 10) (Nat.div_lt_self (Nat.pos_of_ne_zero h) (by norm_num))

theorem ofDigitsRev_eq_zero_norm (t : List Nat) (hv : ofDigitsRev t = 0)
    (hn : NormDigits t) : t = [] := by
  induction t with
  | nil => rfl
  | cons x r ih =>
      exfalso
      simp [ofDigitsRev] at hv
      obtain ⟨hx, hr⟩ := hv
      cases r with
      | nil =>
          rw [hx] at hn
          exact (normDigits_singleton 0).mp hn rfl
      | cons y r' =>
          have := ih hr (normDigits_of_cons x (y :: r') hn)
          simp at this

/-- Uniqueness: a digit-bounded list with no leading zero is exactly the
digit list of its value. -/
theorem digits_unique (d : List Nat) (hd : ∀ x ∈ d, x < 10) (hn : NormDigits d) :
    d = decDigits (ofDigitsRev d) := by
  induction d with
  | nil => rfl
  | cons a t ih =>
      have ha : a < 10 := hd a (by simp)
      cases t with
      | nil =>
          have ha0 : a ≠ 0 := (normDigits_singleton a).mp hn
          have hv : ofDigitsRev [a] = a := by simp [ofDigitsRev]
          rw [hv, decDigits_succ a ha0, Nat.mod_eq_of_lt ha,
            Nat.div_eq_of_lt ha]
          rfl
      | cons b t' =>
          have hnt : NormDigits (b :: t') := normDigits_of_cons a (b :: t') hn
          have hvt : ofDigitsRev (b :: t') ≠ 0 := by
            intro h0
            have := ofDigitsRev_eq_zero_norm (b :: t') h0 hnt
            simp at this
          have hv : ofDigitsRev (a :: b :: t') = a + 10 * ofDigitsRev (b :: t') := rfl
          have hne : ofDigitsRev (a :: b :: t') ≠ 0 := by
            rw [hv]; omega
          rw [decDigits_succ _ hne]
          have h1 : ofDigitsRev (a :: b :: t') % 10 = a := by rw [hv]; omega
          have h2 : ofDigitsRev (a :: b :: t') / 10 = ofDigitsRev (b :: t') := by
            rw [hv]; omega
          rw [h1, h2]
          exact congrArg (List.cons a)
            (ih (fun x hx => hd x (by simp [hx])) hnt)

/-! Correctness of `addStrings` (digit-wise addition with carry). -/

theorem addTail_value : ∀ (ds : List Nat) (c : Nat),
    ofDigitsRev (calculations.addTail ds c) = ofDigitsRev ds + c := by
  intro ds
  induction ds with
  | nil => intro c; simp [calculations.addTail, ofDigitsRev, ofDigitsRev_decDigits]
  | cons d ds ih =>
      intro c
      simp only [calculations.addTail, ofDigitsRev, ih]
      omega

theorem addRevDigits_value : ∀ (xs ys : List Nat) (c : Nat),
    ofDigitsRev (calculations.addRevDigits xs ys c) =
      ofDigitsRev xs + ofDigitsRev ys + c := by
  intro xs
  induction xs with
  | nil => intro ys c; simp [calculations.addRevDigits, addTail_value, ofDigitsRev]
  | cons x xs ih =>
      intro ys c
      have hy : ys.headD 0 + 10 * ofDigitsRev ys.tail = ofDigitsRev ys := by
        cases ys <;> simp [ofDigitsRev]
      simp only [calculations.addRevDigits, ofDigitsRev, ih]
      omega

theorem addTail_lt10 : ∀ (ds : List Nat) (c : Nat),
    ∀ e ∈ calculations.addTail ds c, e < 10 := by
  intro ds
  induction ds with
  | nil => intro c e he; exact decDigits_lt10 c e he
  | cons d ds ih =>
      intro c e he
      rcases List.mem_cons.mp he with h | h
      · omega
      · exact ih _ e h

theorem addRevDigits_lt10 : ∀ (xs ys : List Nat) (c : Nat),
    ∀ e ∈ calculations.addRevDigits xs ys c, e < 10 := by
  intro xs
  induction xs with
  | nil => intro ys c e he; exact addTail_lt10 ys c e he
  | cons x xs ih =>
      intro ys c e he
      rcases List.mem_cons.mp he with h | h
      · omega
      · exact ih _ _ e h

theorem addTail_eq_nil_iff (ds : List Nat) (c : Nat) :
    calculations.addTail ds c = [] ↔ ds = [] ∧ c = 0 := by
  cases ds with
  | nil => simp [calculations.addTail, decDigits_eq_nil_iff]
  | cons d ds => simp [calculations.addTail]

theorem addRevDigits_eq_nil_iff (xs ys : List Nat) (c : Nat) :
    calculations.addRevDigits xs ys c = [] ↔ xs = [] ∧ ys = [] ∧ c = 0 := by
  cases xs with
  | nil => simp [calculations.addRevDigits, addTail_eq_nil_iff]
  | cons x xs => simp [calculations.addRevDigits]

theorem addTail_norm : ∀ (ds : List Nat) (c : Nat),
    (∀ e ∈ ds, e < 10) → c ≤ 1 → NormDigits ds →
    NormDigits (calculations.addTail ds c) := by
  intro ds
  induction ds with
  | nil => intro c _ _ _; exact decDigits_norm c
  | cons d ds ih =>
      intro c hlt hc hn
      cases ds with
      | nil =>
          have hd0 : d ≠ 0 := (normDigits_singleton d).mp hn
          have hd10 : d < 10 := hlt d (by simp)
          show NormDigits ((d + c) % 10 :: calculations.addTail [] ((d + c) / 10))
          show NormDigits ((d + c) % 10 :: decDigits ((d + c) / 10))
          by_cases hq : (d + c) / 10 = 0
          · rw [hq]
            show NormDigits [(d + c) % 10]
            rw [normDigits_singleton]
            omega
          · rw [normDigits_cons_of_ne_nil _ _
              ((not_iff_not.mpr (decDigits_eq_nil_iff _)).mpr hq)]
            exact decDigits_norm _
      | cons b ds' =>
          have hc' : (d + c) / 10 ≤ 1 := by
            have := hlt d (by simp)
            omega
          have hrec : calculations.addTail (b :: ds') ((d + c) / 10) ≠ [] := by
            rw [Ne, addTail_eq_nil_iff]
            simp
          show NormDigits ((d + c) % 10 :: calculations.addTail (b :: ds') ((d + c) / 10))
          rw [normDigits_cons_of_ne_nil _ _ hrec]
          exact ih _ (fun e he => hlt e (by simp [he])) hc'
            (normDigits_of_cons d (b :: ds') hn)

theorem addRevDigits_norm : ∀ (xs ys : List Nat) (c : Nat),
    (∀ e ∈ xs, e < 10) → (∀ e ∈ ys, e < 10) → c ≤ 1 →
    NormDigits xs → NormDigits ys →
    NormDigits (calculations.addRevDigits xs ys c) := by
  intro xs
  induction xs with
  | nil => intro ys c _ hys hc _ hny; exact addTail_norm ys c hys hc hny
  | cons x xs ih =>
      intro ys c hxs hys hc hnx hny
      have hx10 : x < 10 := hxs x (by simp)
      have hy10 : ys.headD 0 < 10 := by
        cases ys with
        | nil => simp
        | cons y ys' => exact hys y (by simp)
      have hc' : (x + ys.headD 0 + c) / 10 ≤ 1 := by omega
      show NormDigits ((x + ys.headD 0 + c) % 10 ::
        calculations.addRevDigits xs ys.tail ((x + ys.headD 0 + c) / 10))
      by_cases hrec : calculations.addRevDigits xs ys.tail ((x + ys.headD 0 + c) / 10) = []
      · obtain ⟨hx0, hyt, hc0⟩ := (addRevDigits_eq_nil_iff _ _ _).mp hrec
        rw [hrec]
        rw [normDigits_singleton]
        subst hx0
        have hxne : x ≠ 0 := (normDigits_singleton x).mp hnx
        omega
      · rw [normDigits_cons_of_ne_nil _ _ hrec]
        refine ih ys.tail _ (fun e he => hxs e (by simp [he])) ?_ hc'
          (normDigits_of_cons x xs hnx) ?_
        · intro e he
          cases ys with
          | nil => simp at he
          | cons y ys' =>
              have he' : e ∈ ys' := by simpa using he
              exact hys e (List.mem_cons_of_mem y he')
        · cases ys with
          | nil => exact normDigits_nil
          | cons y ys' => exact normDigits_of_cons y ys' hny

/-- Digit characters round-trip on digits below 10. -/
theorem charDigit_digitChar (d : Nat) (h : d < 10) : charDigit (digitChar d) = d := by
  interval_cases d <;> decide

/-- `addStrings` adds decimal representations exactly (for positive
arguments, which is how the fibonacci loop uses it after its first
step). -/
theorem addStrings_decimalRepr (a b : Nat) (ha : 1 ≤ a) (hb : 1 ≤ b) :
    calculations.addStrings (decimalRepr a) (decimalRepr b) = decimalRepr (a + b) := by
  have hskel : ∀ n : Nat, 1 ≤ n →
      (decimalRepr n).data.reverse.map charDigit = decDigits n := by
    intro n hn
    unfold decimalRepr
    rw [if_neg (by omega)]
    show (((decDigits n).map digitChar).reverse).reverse.map charDigit = decDigits n
    rw [List.reverse_reverse, List.map_map]
    have hpt : ∀ x ∈ decDigits n, (charDigit ∘ digitChar) x = id x :=
      fun x hx => charDigit_digitChar x (decDigits_lt10 n x hx)
    rw [List.map_congr_left hpt, List.map_id]
  have hkey : calculations.addRevDigits (decDigits a) (decDigits b) 0 =
      decDigits (a + b) := by
    have h1 := digits_unique (calculations.addRevDigits (decDigits a) (decDigits b) 0)
      (addRevDigits_lt10 (decDigits a) (decDigits b) 0)
      (addRevDigits_norm (decDigits a) (decDigits b) 0
        (decDigits_lt10 a) (decDigits_lt10 b) (by omega)
        (decDigits_norm a) (decDigits_norm b))
    rw [addRevDigits_value, ofDigitsRev_decDigits, ofDigitsRev_decDigits] at h1
    simpa using h1
  unfold calculations.addStrings
  rw [hskel a ha, hskel b hb, hkey]
  unfold decimalRepr
  rw [if_neg (by omega)]

/-! Fibonacci and factorial produce exact decimal strings. -/

theorem fibLoop_decimal (k : Nat) : ∀ m, 1 ≤ m →
    calculations.fibLoop k (decimalRepr (Nat.fib m)) (decimalRepr (Nat.fib (m + 1))) =
      decimalRepr (Nat.fib (m + 1 + k)) := by
  induction k with
  | zero => intro m hm; simp [calculations.fibLoop]
  | succ k ih =>
      intro m hm
      have hfm : 1 ≤ Nat.fib m := Nat.fib_pos.mpr (by omega)
      have hfm1 : 1 ≤ Nat.fib (m + 1) := Nat.fib_pos.mpr (by omega)
      show calculations.fibLoop k (decimalRepr (Nat.fib (m + 1)))
          (calculations.addStrings (decimalRepr (Nat.fib m))
            (decimalRepr (Nat.fib (m + 1)))) =
        decimalRepr (Nat.fib (m + 1 + (k + 1)))
      rw [addStrings_decimalRepr _ _ hfm hfm1, ← Nat.fib_add_two]
      have := ih (m + 1) (by omega)
      rw [show m + 1 + 1 = m + 2 from rfl] at this
      rw [this, show m + 2 + k = m + 1 + (k + 1) by omega]

theorem fibonacciStr_decimal (n : Nat) :
    calculations.fibonacciStr n = decimalRepr (Nat.fib n) := by
  unfold calculations.fibonacciStr
  split_ifs with h0 h1
  · rw [h0]; rfl
  · rw [h1]; rfl
  · have h2 : 2 ≤ n := by omega
    have hsplit : n - 1 = (n - 2) + 1 := by omega
    rw [hsplit]
    show calculations.fibLoop (n - 2) "1" (calculations.addStrings "0" "1") = _
    have ha : calculations.addStrings "0" "1" = "1" := by decide
    rw [ha]
    have h1' : ("1" : String) = decimalRepr (Nat.fib 1) := by rw [Nat.fib_one]; rfl
    have h2' : ("1" : String) = decimalRepr (Nat.fib 2) := by rw [Nat.fib_two]; rfl
    rw [show calculations.fibLoop (n - 2) "1" "1" =
        calculations.fibLoop (n - 2) (decimalRepr (Nat.fib 1))
          (decimalRepr (Nat.fib (1 + 1))) by rw [← h1', ← h2']]
    rw [fibLoop_decimal (n - 2) 1 (le_refl 1)]
    rw [show 1 + 1 + (n - 2) = n by omega]

theorem factorialStr_decimal_le20 :
    ∀ m : Nat, m ≤ 20 → calculations.factorialStr m = decimalRepr (Nat.factorial m) := by
  decide

/-! Trial division in `prime_check` decides primality. -/

theorem isqrtFuel_sq_le (n : Nat) : ∀ (f k : Nat), k * k ≤ n →
    calculations.isqrtFuel n f k * calculations.isqrtFuel n f k ≤ n := by
  intro f
  induction f with
  | zero => intro k h; exact h
  | succ f ih =>
      intro k h
      by_cases hs : (k + 1) * (k + 1) ≤ n
      · simpa [calculations.isqrtFuel, hs] using ih (k + 1) hs
      · simpa [calculations.isqrtFuel, hs] using h

theorem isqrtFuel_lt_succ_sq (n : Nat) : ∀ (f k : Nat),
    n < (k + f + 1) * (k + f + 1) →
    n < (calculations.isqrtFuel n f k + 1) * (calculations.isqrtFuel n f k + 1) := by
  intro f
  induction f with
  | zero => intro k h; simpa [calculations.isqrtFuel] using h
  | succ f ih =>
      intro k h
      by_cases hs : (k + 1) * (k + 1) ≤ n
      · have h' : n < (k + 1 + f + 1) * (k + 1 + f + 1) := by
          rw [show k + 1 + f + 1 = k + (f + 1) + 1 by omega]
          exact h
        simpa [calculations.isqrtFuel, hs] using ih (k + 1) h'
      · push_neg at hs
        have hns : ¬((k + 1) * (k + 1) ≤ n) := not_le.mpr hs
        simpa [calculations.isqrtFuel, hns] using hs

theorem isqrt_sq_le (n : Nat) : calculations.isqrt n * calculations.isqrt n ≤ n :=
  isqrtFuel_sq_le n n 0 (by simp)

theorem isqrt_lt_succ_sq (n : Nat) :
    n < (calculations.isqrt n + 1) * (calculations.isqrt n + 1) := by
  apply isqrtFuel_lt_succ_sq n n 0
  have h1 : n + 1 ≤ (n + 1) * (n + 1) := Nat.le_mul_of_pos_left (n + 1) (by omega)
  have h2 : 0 + n + 1 = n + 1 := by omega
  rw [h2]
  omega

theorem le_isqrt_iff (n d : Nat) : d ≤ calculations.isqrt n ↔ d * d ≤ n := by
  constructor
  · intro h
    exact le_trans (Nat.mul_le_mul h h) (isqrt_sq_le n)
  · intro h
    by_contra hlt
    push_neg at hlt
    have : (calculations.isqrt n + 1) * (calculations.isqrt n + 1) ≤ d * d := Nat.mul_le_mul hlt hlt
    have := isqrt_lt_succ_sq n
    omega

theorem isqrt_lt_self (n : Nat) (h : 2 ≤ n) : calculations.isqrt n < n := by
  by_contra hge
  push_neg at hge
  have h1 : n * n ≤ calculations.isqrt n * calculations.isqrt n := Nat.mul_le_mul hge hge
  have h2 := isqrt_sq_le n
  have h3 : n * n ≤ n := le_trans h1 h2
  have h4 : n * 2 ≤ n * n := Nat.mul_le_mul_left n h
  omega

theorem primeLoop_true_iff (n : Nat) : ∀ (f i : Nat), i % 2 = 1 →
    calculations.isqrt n < i + 2 * f →
    (calculations.primeLoop n f i = true ↔
      ∀ j, i ≤ j → j ≤ calculations.isqrt n → j % 2 = 1 → ¬(n % j = 0)) := by
  intro f
  induction f with
  | zero =>
      intro i hodd hcov
      constructor
      · intro _ j hij hjle hjo
        exfalso
        omega
      · intro _
        rfl
  | succ f ih =>
      intro i hodd hcov
      by_cases hle : i ≤ calculations.isqrt n
      · by_cases hdiv : n % i = 0
        · have hred : calculations.primeLoop n (f + 1) i = false := by
            simp [calculations.primeLoop, hle, hdiv]
          rw [hred]
          constructor
          · intro h; simp at h
          · intro hR
            exact absurd hdiv (hR i (le_refl i) hle hodd)
        · have hrec := ih (i + 2) (by omega) (by omega)
          have hred : calculations.primeLoop n (f + 1) i =
              calculations.primeLoop n f (i + 2) := by
            simp [calculations.primeLoop, hle, hdiv]
          rw [hred, hrec]
          constructor
          · intro h j hij hjle hjo
            by_cases hji : j = i
            · subst hji; exact fun hd => hdiv hd
            · exact h j (by omega) hjle hjo
          · intro h j hij hjle hjo
            exact h j (by omega) hjle hjo
      · have hred : calculations.primeLoop n (f + 1) i = true := by
          simp [calculations.primeLoop, hle]
        rw [hred]
        constructor
        · intro _ j hij hjle hjo
          exfalso
          omega
        · intro _
          rfl

theorem primeCheckStr_eq (n : Nat) (h2 : 2 ≤ n) :
    calculations.primeCheckStr n = (if Nat.Prime n then "true" else "false") := by
  unfold calculations.primeCheckStr
  by_cases hn2 : n = 2
  · subst hn2
    simp [Nat.prime_two]
  · by_cases heven : n % 2 = 0
    · have hnp : ¬ Nat.Prime n := by
        intro hp
        have h2d : (2 : Nat) ∣ n := Nat.dvd_of_mod_eq_zero heven
        rcases (Nat.Prime.eq_one_or_self_of_dvd hp 2 h2d) with h | h
        · omega
        · exact hn2 h.symm
      simp [hn2, heven, hnp]
    · have hodd : n % 2 = 1 := by omega
      have hloop := primeLoop_true_iff n (calculations.isqrt n) 3 (by norm_num) (by omega)
      by_cases hp : Nat.Prime n
      · have hres : calculations.primeLoop n (calculations.isqrt n) 3 = true := by
          rw [hloop]
          intro j hj3 hjle hjodd hdvd
          have hjd : j ∣ n := Nat.dvd_of_mod_eq_zero hdvd
          rcases (Nat.Prime.eq_one_or_self_of_dvd hp j hjd) with h | h
          · omega
          · have := isqrt_lt_self n h2
            omega
        simp [hn2, heven, hres, hp]
      · have hmf := Nat.minFac_prime (show n ≠ 1 by omega)
        have hmfd : Nat.minFac n ∣ n := Nat.minFac_dvd n
        have hsq : Nat.minFac n * Nat.minFac n ≤ n := by
          have := Nat.minFac_sq_le_self (show 0 < n by omega) hp
          simpa [Nat.pow_two] using this
        have hmo : Nat.minFac n % 2 = 1 := by
          rcases Nat.mod_two_eq_zero_or_one (Nat.minFac n) with h | h
          · exfalso
            have h2d : (2 : Nat) ∣ Nat.minFac n := Nat.dvd_of_mod_eq_zero h
            have h2n : (2 : Nat) ∣ n := h2d.trans hmfd
            exact heven (Nat.mod_eq_zero_of_dvd h2n)
          · exact h
        have hm3 : 3 ≤ Nat.minFac n := by
          have h2le := Nat.Prime.two_le hmf
          omega
        have hmle : Nat.minFac n ≤ calculations.isqrt n := (le_isqrt_iff n _).mpr hsq
        have hres : calculations.primeLoop n (calculations.isqrt n) 3 = false := by
          by_contra hbt
          have hbt' : calculations.primeLoop n (calculations.isqrt n) 3 = true := by
            cases hb : calculations.primeLoop n (calculations.isqrt n) 3
            · exact absurd hb hbt
            · rfl
          have := (hloop.mp hbt') (Nat.minFac n) hm3 hmle hmo
          exact this (Nat.mod_eq_zero_of_dvd hmfd)
        simp [hn2, heven, hres, hp]

/-- Claim C9: for 0 ≤ n ≤ 20, `factorial(n)` returns the exact decimal
representation of n! (in particular `factorial(5) = "120"` and
`factorial(20) = "2432902008176640000"`) and raises for n < 0; for
0 ≤ n ≤ 1000, `fibonacci(n)` returns the exact decimal representation of
the 0-indexed n-th Fibonacci number (`fib(0) = "0"`, `fib(1) = "1"`) and
raises for n < 0; and for n ≥ 2, `prime_check(n)` returns "true" exactly
when n is prime and "false" otherwise, raising for n < 2. -/
theorem C9_calculations :
    (∀ n : Int, 0 ≤ n → n ≤ 20 →
      calculations.factorial n = Except.ok (decimalRepr (Nat.factorial n.toNat))) ∧
    calculations.factorial 5 = Except.ok "120" ∧
    calculations.factorial 20 = Except.ok "2432902008176640000" ∧
    (∀ n : Int, n < 0 → calculations.factorial n =
      Except.error "Factorial is not defined for negative numbers") ∧
    (∀ n : Int, 0 ≤ n → n ≤ 1000 →
      calculations.fibonacci n = Except.ok (decimalRepr (Nat.fib n.toNat))) ∧
    calculations.fibonacci 0 = Except.ok "0" ∧
    calculations.fibonacci 1 = Except.ok "1" ∧
    (∀ n : Int, n < 0 → calculations.fibonacci n =
      Except.error "Fibonacci is not defined for negative numbers") ∧
    (∀ n : Int, 2 ≤ n → calculations.prime_check n =
      Except.ok (if Nat.Prime n.toNat then "true" else "false")) ∧
    (∀ n : Int, n < 2 → calculations.prime_check n =
      Except.error "Prime check requires number >= 2") := by
  refine ⟨?_, by decide, by decide, ?_, ?_, by decide, by decide, ?_, ?_, ?_⟩
  · intro n h0 h20
    unfold calculations.factorial
    rw [if_neg (by omega), factorialStr_decimal_le20 n.toNat (by omega)]
  · intro n hneg
    unfold calculations.factorial
    rw [if_pos hneg]
  · intro n h0 _
    unfold calculations.fibonacci
    rw [if_neg (by omega), fibonacciStr_decimal]
  · intro n hneg
    unfold calculations.fibonacci
    rw [if_pos hneg]
  · intro n h2
    unfold calculations.prime_check
    rw [if_neg (by omega), primeCheckStr_eq n.toNat (by omega)]
  · intro n hlt
    unfold calculations.prime_check
    rw [if_pos hlt]

/-- Witness for C9 at concrete inputs 5, 10 and 17. -/
theorem C9_calculations_witness :
    calculations.factorial 5 = Except.ok (decimalRepr (Nat.factorial (Int.toNat 5))) ∧
    calculations.fibonacci 10 = Except.ok (decimalRepr (Nat.fib (Int.toNat 10))) ∧
    calculations.prime_check 17 =
      Except.ok (if Nat.Prime (Int.toNat 17) then "true" else "false") :=
  ⟨C9_calculations.1 5 (by decide) (by decide),
   C9_calculations.2.2.2.2.1 10 (by decide) (by decide),
   C9_calculations.2.2.2.2.2.2.2.2.1 17 (by decide)⟩

/-! Claims C4 and C8 — invariants of the labelled transition system. -/

/-- The statistics ("counter") invariant: the processed counter plus the
number of busy threads equals completed + failed + the number of stored
PROCESSING records. -/
def CInv (s : SysState) : Prop :=
  s.w.tasks_processed + s.inflight.length =
    s.w.tasks_completed + s.w.tasks_failed + countProcessing s.w.task_storage

theorem mapFind?_some_mem (m : List (String × Task)) (k : String) (v : Task)
    (h : mapFind? m k = some v) : (k, v) ∈ m := by
  induction m with
  | nil => simp [mapFind?] at h
  | cons p rest ih =>
      obtain ⟨k0, v0⟩ := p
      by_cases h0 : k0 = k
      · subst h0
        simp [mapFind?] at h
        simp [h]
      · simp [mapFind?, h0] at h
        simp [ih h]

theorem Inv_init : Inv ⟨Worker.init, []⟩ := by
  refine ⟨?_, ?_, ?_, ?_, ?_⟩ <;> simp [Worker.init]

theorem CInv_init : CInv ⟨Worker.init, []⟩ := by
  simp [CInv, Worker.init, countProcessing]

/-- Preservation of the safety invariant by every step. -/
theorem step_preserves_Inv (s s' : SysState) (l : WLabel)
    (hs : WStep s l s') (hI : Inv s) : Inv s' := by
  obtain ⟨hq, hinf, hnd, hkeys, hR⟩ := hI
  cases hs with
  | create t hst hres herr hfresh =>
      have hqid : ∀ u ∈ s.w.task_queue ++ s.inflight, u.id ≠ t.id := by
        intro u hu hne
        have hfu : mapFind? s.w.task_storage u.id = some u := by
          rcases List.mem_append.mp hu with h | h
          · exact (hq u h).2.2.2
          · exact (hinf u h).2.2.2
        rw [hne, hfresh] at hfu
        simp at hfu
      refine ⟨?_, ?_, ?_, ?_, ?_⟩
      · intro u hu
        simp only [Worker.addTask] at hu ⊢
        rcases List.mem_append.mp hu with h | h
        · obtain ⟨h1, h2, h3, h4⟩ := hq u h
          have hne : u.id ≠ t.id := hqid u (List.mem_append.mpr (Or.inl h))
          exact ⟨h1, h2, h3, by rw [mapFind?_insert_ne _ _ _ _ hne]; exact h4⟩
        · have : u = t := by simpa using h
          subst this
          exact ⟨hst, hres, herr, mapFind?_insert_self _ _ _⟩
      · intro u hu
        obtain ⟨h1, h2, h3, h4⟩ := hinf u hu
        have hne : u.id ≠ t.id := by
          intro hne
          rw [hne, hfresh] at h4
          simp at h4
        exact ⟨h1, h2, h3, by
          simp only [Worker.addTask]
          rw [mapFind?_insert_ne _ _ _ _ hne]; exact h4⟩
      · show (((s.w.task_queue ++ [t]) ++ s.inflight).map Task.id).Nodup
        have hperm : (s.w.task_queue ++ [t]) ++ s.inflight =
            s.w.task_queue ++ t :: s.inflight := by simp
        rw [hperm, List.map_append]
        rw [show (t :: s.inflight).map Task.id = t.id :: s.inflight.map Task.id from rfl]
        rw [List.nodup_middle]
        refine List.Nodup.cons ?_ (by rw [← List.map_append]; exact hnd)
        intro hmem
        rw [← List.map_append] at hmem
        obtain ⟨u, hu, hueq⟩ := List.mem_map.mp hmem
        exact hqid u hu hueq
      · show ((mapInsert s.w.task_storage t.id t).map Prod.fst).Nodup
        rw [mapInsert_keys_of_fresh _ _ _ hfresh]
        have hnotin : t.id ∉ s.w.task_storage.map Prod.fst :=
          (mapFind?_eq_none_iff _ _).mp hfresh
        rw [show s.w.task_storage.map Prod.fst ++ [t.id] =
          s.w.task_storage.map Prod.fst ++ t.id :: [] from rfl, List.nodup_middle]
        exact List.Nodup.cons (by simpa using hnotin) (by simpa using hkeys)
      · intro p hp
        rcases mem_mapInsert _ _ _ p hp with h | h
        · subst h
          intro hps
          rw [hst] at hps
          simp at hps
        · exact hR p h
  | dequeue t rest hq' =>
      have hqcons : ∀ u ∈ t :: rest, u.status = TaskStatus.PENDING ∧ u.result = "" ∧
          u.error_message = "" ∧ mapFind? s.w.task_storage u.id = some u := by
        rw [← hq']; exact hq
      obtain ⟨hts, htr, hte, htf⟩ := hqcons t (by simp)
      have hndc : (t.id :: (rest ++ s.inflight).map Task.id).Nodup := by
        have := hnd
        rw [hq'] at this
        simpa using this
      have htid_notin : t.id ∉ (rest ++ s.inflight).map Task.id :=
        (List.nodup_cons.mp hndc).1
      refine ⟨?_, ?_, ?_, ?_, ?_⟩
      · intro u hu
        have hu' : u ∈ rest := hu
        obtain ⟨h1, h2, h3, h4⟩ := hqcons u (List.mem_cons.mpr (Or.inr hu'))
        have hne : u.id ≠ t.id := by
          intro he
          exact htid_notin (by
            rw [← he]
            exact List.mem_map.mpr ⟨u, List.mem_append.mpr (Or.inl hu), rfl⟩)
        refine ⟨h1, h2, h3, ?_⟩
        show mapFind? (mapInsert s.w.task_storage t.id
          (t.setStatus TaskStatus.PROCESSING)) u.id = some u
        rw [mapFind?_insert_ne _ _ _ _ hne]
        exact h4
      · intro u hu
        rcases List.mem_cons.mp hu with h | h
        · subst h
          refine ⟨rfl, htr, hte, ?_⟩
          show mapFind? (mapInsert s.w.task_storage t.id
            (t.setStatus TaskStatus.PROCESSING)) t.id = some _
          exact mapFind?_insert_self _ _ _
        · obtain ⟨h1, h2, h3, h4⟩ := hinf u h
          have hne : u.id ≠ t.id := by
            intro he
            exact htid_notin (by
              rw [← he]
              exact List.mem_map.mpr ⟨u, List.mem_append.mpr (Or.inr h), rfl⟩)
          refine ⟨h1, h2, h3, ?_⟩
          show mapFind? (mapInsert s.w.task_storage t.id
            (t.setStatus TaskStatus.PROCESSING)) u.id = some u
          rw [mapFind?_insert_ne _ _ _ _ hne]
          exact h4
      · show ((rest ++ t.setStatus TaskStatus.PROCESSING :: s.inflight).map Task.id).Nodup
        rw [List.map_append]
        rw [show (t.setStatus TaskStatus.PROCESSING :: s.inflight).map Task.id =
          t.id :: s.inflight.map Task.id from rfl]
        rw [List.nodup_middle, ← List.map_append]
        exact List.Nodup.cons htid_notin (List.nodup_cons.mp hndc).2
      · show ((mapInsert s.w.task_storage t.id
          (t.setStatus TaskStatus.PROCESSING)).map Prod.fst).Nodup
        rw [mapInsert_keys_of_found _ _ _ t htf]
        exact hkeys
      · intro p hp
        rcases mem_mapInsert _ _ _ p hp with h | h
        · subst h
          intro _ _
          show (t.setStatus TaskStatus.PROCESSING).error_message = ""
          exact hte
        · exact hR p h
  | finish pre post t hin =>
      obtain ⟨hts, htr, hte, htf⟩ := hinf t (by rw [hin]; simp)
      have hndin : ((pre ++ t :: post).map Task.id).Nodup := by
        have := hnd
        rw [hin] at this
        rw [List.map_append] at this
        exact ((List.nodup_append.mp this).2).1
      have htid_notin : t.id ∉ (pre ++ post).map Task.id := by
        have := hndin
        rw [List.map_append] at this
        rw [show (t :: post).map Task.id = t.id :: post.map Task.id from rfl] at this
        rw [List.nodup_middle] at this
        rw [← List.map_append] at this
        exact (List.nodup_cons.mp this).1
      have hqdisj : ∀ u ∈ s.w.task_queue, u.id ≠ t.id := by
        intro u hu hne
        have h1 := hnd
        rw [List.map_append, List.nodup_append] at h1
        refine h1.2.2 (List.mem_map.mpr ⟨u, hu, rfl⟩) ?_
        rw [hne]
        exact List.mem_map.mpr ⟨t, by rw [hin]; simp, rfl⟩
      -- the two branches of finishTask share everything but the new record
      have hmain : ∀ (t2 : Task), t2.id = t.id →
          (t2.status = TaskStatus.PROCESSING → t2.result = "" → t2.error_message = "") →
          (∀ u ∈ s.w.task_queue, u.status = TaskStatus.PENDING ∧ u.result = "" ∧
            u.error_message = "" ∧
            mapFind? (mapInsert s.w.task_storage t.id t2) u.id = some u) ∧
          (∀ u ∈ pre ++ post, u.status = TaskStatus.PROCESSING ∧ u.result = "" ∧
            u.error_message = "" ∧
            mapFind? (mapInsert s.w.task_storage t.id t2) u.id = some u) ∧
          ((s.w.task_queue ++ (pre ++ post)).map Task.id).Nodup ∧
          ((mapInsert s.w.task_storage t.id t2).map Prod.fst).Nodup ∧
          (∀ p ∈ mapInsert s.w.task_storage t.id t2,
            p.2.status = TaskStatus.PROCESSING → p.2.result = "" →
            p.2.error_message = "") := by
        intro t2 ht2id ht2R
        refine ⟨?_, ?_, ?_, ?_, ?_⟩
        · intro u hu
          obtain ⟨h1, h2, h3, h4⟩ := hq u hu
          exact ⟨h1, h2, h3, by
            rw [mapFind?_insert_ne _ _ _ _ (hqdisj u hu)]; exact h4⟩
        · intro u hu
          obtain ⟨h1, h2, h3, h4⟩ := hinf u (by rw [hin]; revert hu; simp; tauto)
          have hne : u.id ≠ t.id := by
            intro he
            exact htid_notin (by rw [← he]; exact List.mem_map.mpr ⟨u, hu, rfl⟩)
          exact ⟨h1, h2, h3, by rw [mapFind?_insert_ne _ _ _ _ hne]; exact h4⟩
        · have hsub : List.Sublist (s.w.task_queue ++ (pre ++ post))
              (s.w.task_queue ++ (pre ++ t :: post)) := by
            apply (List.append_sublist_append_left _).mpr
            apply (List.append_sublist_append_left _).mpr
            exact List.sublist_cons_self t post
          have := hnd
          rw [hin] at this
          exact this.sublist (hsub.map Task.id)
        · rw [mapInsert_keys_of_found _ _ _ t htf]
          exact hkeys
        · intro p hp
          rcases mem_mapInsert _ _ _ p hp with h | h
          · subst h
            exact ht2R
          · exact hR p h
      show Inv ⟨Worker.finishTask s.w t, pre ++ post⟩
      unfold Worker.finishTask
      cases hex : calculations.execute_calculation t.data.operation t.data.input with
      | ok r =>
          have := hmain (t.setResult r) rfl (by
            intro _ hres
            exact absurd hres (by
              show ¬((t.setResult r).result = "")
              show ¬(r = "")
              exact exec_ok_ne_empty _ _ _ hex))
          exact ⟨this.1, this.2.1, this.2.2.1, this.2.2.2.1, this.2.2.2.2⟩
      | error e =>
          have := hmain ((t.setErrorMessage e).setStatus TaskStatus.FAILED) rfl (by
            intro hst
            exact absurd hst (by simp [Task.setStatus, Task.setErrorMessage]))
          exact ⟨this.1, this.2.1, this.2.2.1, this.2.2.2.1, this.2.2.2.2⟩
  | complete id =>
      show Inv ⟨(s.w.completeTask id).1, s.inflight⟩
      cases hfind : mapFind? s.w.task_storage id with
      | none =>
          have : (s.w.completeTask id).1 = s.w := by
            simp [Worker.completeTask, hfind]
          rw [this]
          exact ⟨hq, hinf, hnd, hkeys, hR⟩
      | some τ =>
          by_cases hc1 : τ.status = TaskStatus.PROCESSING ∧ τ.result ≠ ""
          · have hrun : (s.w.completeTask id).1 =
                { s.w with
                    task_storage := mapInsert s.w.task_storage id
                      (τ.setStatus TaskStatus.COMPLETED),
                    tasks_completed := s.w.tasks_completed + 1 } := by
              simp [Worker.completeTask, hfind, hc1.1, hc1.2]
            rw [hrun]
            refine ⟨?_, ?_, hnd, ?_, ?_⟩
            · intro u hu
              obtain ⟨h1, h2, h3, h4⟩ := hq u hu
              have hne : u.id ≠ id := by
                intro he
                rw [he, hfind] at h4
                have hτ : τ = u := by simpa using h4
                subst hτ
                rw [h1] at hc1
                simp at hc1
              exact ⟨h1, h2, h3, by
                show mapFind? (mapInsert s.w.task_storage id
                  (τ.setStatus TaskStatus.COMPLETED)) u.id = some u
                rw [mapFind?_insert_ne _ _ _ _ hne]; exact h4⟩
            · intro u hu
              obtain ⟨h1, h2, h3, h4⟩ := hinf u hu
              have hne : u.id ≠ id := by
                intro he
                rw [he, hfind] at h4
                have hτ : τ = u := by simpa using h4
                subst hτ
                rw [h2] at hc1
                simp at hc1
              exact ⟨h1, h2, h3, by
                show mapFind? (mapInsert s.w.task_storage id
                  (τ.setStatus TaskStatus.COMPLETED)) u.id = some u
                rw [mapFind?_insert_ne _ _ _ _ hne]; exact h4⟩
            · show ((mapInsert s.w.task_storage id
                (τ.setStatus TaskStatus.COMPLETED)).map Prod.fst).Nodup
              rw [mapInsert_keys_of_found _ _ _ τ hfind]
              exact hkeys
            · intro p hp
              rcases mem_mapInsert _ _ _ p hp with h | h
              · subst h
                intro hst
                exact absurd hst (by simp [Task.setStatus])
              · exact hR p h
          · by_cases hc2 : τ.status = TaskStatus.PROCESSING ∧ τ.result = "" ∧
                τ.error_message ≠ ""
            · exfalso
              have hmem : (id, τ) ∈ s.w.task_storage := mapFind?_some_mem _ _ _ hfind
              exact hc2.2.2 (hR (id, τ) hmem hc2.1 hc2.2.1)
            · have : (s.w.completeTask id).1 = s.w := by
                simp [Worker.completeTask, hfind, hc1, hc2]
              rw [this]
              exact ⟨hq, hinf, hnd, hkeys, hR⟩

/-- Preservation of the statistics invariant by every step. -/
theorem step_preserves_CInv (s s' : SysState) (l : WLabel)
    (hs : WStep s l s') (hI : Inv s) (hC : CInv s) : CInv s' := by
  obtain ⟨hq, hinf, hnd, hkeys, hR⟩ := hI
  unfold CInv at hC
  cases hs with
  | create t hst hres herr hfresh =>
      show s.w.tasks_processed + s.inflight.length =
        s.w.tasks_completed + s.w.tasks_failed +
          countProcessing (mapInsert s.w.task_storage t.id t)
      have hcount : countProcessing (mapInsert s.w.task_storage t.id t) =
          countProcessing s.w.task_storage := by
        unfold countProcessing
        rw [mapInsert_countP_fresh _ _ _ _ hfresh]
        simp [hst]
      rw [hcount]
      exact hC
  | dequeue t rest hq' =>
      obtain ⟨hts, htr, hte, htf⟩ := hq t (by rw [hq']; simp)
      show s.w.tasks_processed + (t.setStatus TaskStatus.PROCESSING :: s.inflight).length =
        s.w.tasks_completed + s.w.tasks_failed +
          countProcessing (mapInsert s.w.task_storage t.id
            (t.setStatus TaskStatus.PROCESSING))
      have hcount := mapInsert_countP s.w.task_storage t.id t
        (t.setStatus TaskStatus.PROCESSING)
        (fun p => decide (p.2.status = TaskStatus.PROCESSING)) htf
      rw [if_neg (by simp [hts]), if_pos (by simp [Task.setStatus])] at hcount
      unfold countProcessing at hC ⊢
      simp only [List.length_cons]
      omega
  | finish pre post t hin =>
      obtain ⟨hts, htr, hte, htf⟩ := hinf t (by rw [hin]; simp)
      have hlen : s.inflight.length = (pre ++ post).length + 1 := by
        rw [hin]
        simp only [List.length_append, List.length_cons]
        omega
      show (Worker.finishTask s.w t).tasks_processed + (pre ++ post).length =
        (Worker.finishTask s.w t).tasks_completed +
          (Worker.finishTask s.w t).tasks_failed +
          countProcessing (Worker.finishTask s.w t).task_storage
      unfold Worker.finishTask
      cases hex : calculations.execute_calculation t.data.operation t.data.input with
      | ok r =>
          have hcount := mapInsert_countP s.w.task_storage t.id t (t.setResult r)
            (fun p => decide (p.2.status = TaskStatus.PROCESSING)) htf
          rw [if_pos (by simp [hts]), if_pos (by simp [Task.setResult, hts])] at hcount
          unfold countProcessing at hC ⊢
          simp only
          omega
      | error e =>
          have hcount := mapInsert_countP s.w.task_storage t.id t
            ((t.setErrorMessage e).setStatus TaskStatus.FAILED)
            (fun p => decide (p.2.status = TaskStatus.PROCESSING)) htf
          rw [if_pos (by simp [hts]),
            if_neg (by simp [Task.setStatus, Task.setErrorMessage])] at hcount
          unfold countProcessing at hC ⊢
          simp only
          omega
  | complete id =>
      show CInv ⟨(s.w.completeTask id).1, s.inflight⟩
      cases hfind : mapFind? s.w.task_storage id with
      | none =>
          have hrun : (s.w.completeTask id).1 = s.w := by
            simp [Worker.completeTask, hfind]
          unfold CInv
          rw [hrun]
          exact hC
      | some τ =>
          by_cases hc1 : τ.status = TaskStatus.PROCESSING ∧ τ.result ≠ ""
          · have hrun : (s.w.completeTask id).1 =
                { s.w with
                    task_storage := mapInsert s.w.task_storage id
                      (τ.setStatus TaskStatus.COMPLETED),
                    tasks_completed := s.w.tasks_completed + 1 } := by
              simp [Worker.completeTask, hfind, hc1.1, hc1.2]
            unfold CInv
            rw [hrun]
            have hcount := mapInsert_countP s.w.task_storage id τ
              (τ.setStatus TaskStatus.COMPLETED)
              (fun p => decide (p.2.status = TaskStatus.PROCESSING)) hfind
            rw [if_pos (by simp [hc1.1]), if_neg (by simp [Task.setStatus])] at hcount
            unfold countProcessing at hC ⊢
            simp only
            omega
          · by_cases hc2 : τ.status = TaskStatus.PROCESSING ∧ τ.result = "" ∧
                τ.error_message ≠ ""
            · exfalso
              exact hc2.2.2 (hR (id, τ) (mapFind?_some_mem _ _ _ hfind) hc2.1 hc2.2.1)
            · have hrun : (s.w.completeTask id).1 = s.w := by
                simp [Worker.completeTask, hfind, hc1, hc2]
              unfold CInv
              rw [hrun]
              exact hC

theorem advanceOk_refl (x : Option TaskStatus) : advanceOk x x := by
  cases x with
  | none => trivial
  | some a => exact Or.inl rfl

/-- Every step under the invariant only advances stored statuses along
PENDING → PROCESSING → (COMPLETED or FAILED). -/
theorem step_advance (s s' : SysState) (l : WLabel)
    (hs : WStep s l s') (hI : Inv s) :
    ∀ id, advanceOk (statusAt s id) (statusAt s' id) := by
  obtain ⟨hq, hinf, hnd, hkeys, hR⟩ := hI
  intro id'
  cases hs with
  | create t hst hres herr hfresh =>
      show advanceOk ((mapFind? s.w.task_storage id').map Task.status)
        ((mapFind? (mapInsert s.w.task_storage t.id t) id').map Task.status)
      by_cases hid : id' = t.id
      · rw [hid, hfresh, mapFind?_insert_self]
        show advanceOk none (some t.status)
        rw [hst]
        rfl
      · rw [mapFind?_insert_ne _ _ _ _ hid]
        exact advanceOk_refl _
  | dequeue t rest hq' =>
      obtain ⟨hts, htr, hte, htf⟩ := hq t (by rw [hq']; simp)
      show advanceOk ((mapFind? s.w.task_storage id').map Task.status)
        ((mapFind? (mapInsert s.w.task_storage t.id
          (t.setStatus TaskStatus.PROCESSING)) id').map Task.status)
      by_cases hid : id' = t.id
      · rw [hid, htf, mapFind?_insert_self]
        show advanceOk (some t.status) (some TaskStatus.PROCESSING)
        rw [hts]
        exact Or.inr (Or.inl ⟨rfl, rfl⟩)
      · rw [mapFind?_insert_ne _ _ _ _ hid]
        exact advanceOk_refl _
  | finish pre post t hin =>
      obtain ⟨hts, htr, hte, htf⟩ := hinf t (by rw [hin]; simp)
      show advanceOk (statusAt s id')
        ((mapFind? (Worker.finishTask s.w t).task_storage id').map Task.status)
      unfold Worker.finishTask
      cases hex : calculations.execute_calculation t.data.operation t.data.input with
      | ok r =>
          show advanceOk ((mapFind? s.w.task_storage id').map Task.status)
            ((mapFind? (mapInsert s.w.task_storage t.id (t.setResult r)) id').map
              Task.status)
          by_cases hid : id' = t.id
          · rw [hid, htf, mapFind?_insert_self]
            exact Or.inl (by simp [Task.setResult])
          · rw [mapFind?_insert_ne _ _ _ _ hid]
            exact advanceOk_refl _
      | error e =>
          show advanceOk ((mapFind? s.w.task_storage id').map Task.status)
            ((mapFind? (mapInsert s.w.task_storage t.id
              ((t.setErrorMessage e).setStatus TaskStatus.FAILED)) id').map
              Task.status)
          by_cases hid : id' = t.id
          · rw [hid, htf, mapFind?_insert_self]
            show advanceOk (some t.status) (some TaskStatus.FAILED)
            rw [hts]
            exact Or.inr (Or.inr ⟨rfl, Or.inr rfl⟩)
          · rw [mapFind?_insert_ne _ _ _ _ hid]
            exact advanceOk_refl _
  | complete id =>
      show advanceOk (statusAt s id')
        ((mapFind? (s.w.completeTask id).1.task_storage id').map Task.status)
      cases hfind : mapFind? s.w.task_storage id with
      | none =>
          rw [show (s.w.completeTask id).1 = s.w by
            simp [Worker.completeTask, hfind]]
          exact advanceOk_refl _
      | some τ =>
          by_cases hc1 : τ.status = TaskStatus.PROCESSING ∧ τ.result ≠ ""
          · rw [show (s.w.completeTask id).1 =
                { s.w with
                    task_storage := mapInsert s.w.task_storage id
                      (τ.setStatus TaskStatus.COMPLETED),
                    tasks_completed := s.w.tasks_completed + 1 } by
              simp [Worker.completeTask, hfind, hc1.1, hc1.2]]
            show advanceOk ((mapFind? s.w.task_storage id').map Task.status)
              ((mapFind? (mapInsert s.w.task_storage id
                (τ.setStatus TaskStatus.COMPLETED)) id').map Task.status)
            by_cases hid : id' = id
            · rw [hid, hfind, mapFind?_insert_self]
              show advanceOk (some τ.status) (some TaskStatus.COMPLETED)
              rw [hc1.1]
              exact Or.inr (Or.inr ⟨rfl, Or.inl rfl⟩)
            · rw [mapFind?_insert_ne _ _ _ _ hid]
              exact advanceOk_refl _
          · by_cases hc2 : τ.status = TaskStatus.PROCESSING ∧ τ.result = "" ∧
                τ.error_message ≠ ""
            · rw [show (s.w.completeTask id).1 =
                  { s.w with
                      task_storage := mapInsert s.w.task_storage id
                        (τ.setStatus TaskStatus.FAILED) } by
                simp [Worker.completeTask, hfind, hc1, hc2.1, hc2.2.1, hc2.2.2]]
              show advanceOk ((mapFind? s.w.task_storage id').map Task.status)
                ((mapFind? (mapInsert s.w.task_storage id
                  (τ.setStatus TaskStatus.FAILED)) id').map Task.status)
              by_cases hid : id' = id
              · rw [hid, hfind, mapFind?_insert_self]
                show advanceOk (some τ.status) (some TaskStatus.FAILED)
                rw [hc2.1]
                exact Or.inr (Or.inr ⟨rfl, Or.inr rfl⟩)
              · rw [mapFind?_insert_ne _ _ _ _ hid]
                exact advanceOk_refl _
            · rw [show (s.w.completeTask id).1 = s.w by
                simp [Worker.completeTask, hfind, hc1, hc2]]
              exact advanceOk_refl _

/-- A stored record becomes COMPLETED only through a `completeTask` call on
its id. -/
theorem step_completed_only (s s' : SysState) (l : WLabel)
    (hs : WStep s l s') (hI : Inv s) :
    ∀ id, statusAt s' id = some TaskStatus.COMPLETED →
      statusAt s id = some TaskStatus.COMPLETED ∨ l = WLabel.complete id := by
  obtain ⟨hq, hinf, hnd, hkeys, hR⟩ := hI
  intro id' hC'
  cases hs with
  | create t hst hres herr hfresh =>
      left
      revert hC'
      show ((mapFind? (mapInsert s.w.task_storage t.id t) id').map Task.status) =
          some TaskStatus.COMPLETED → _
      by_cases hid : id' = t.id
      · rw [hid, mapFind?_insert_self]
        intro hC'
        simp [hst] at hC'
      · rw [mapFind?_insert_ne _ _ _ _ hid]
        intro hC'
        exact hC'
  | dequeue t rest hq' =>
      left
      revert hC'
      show ((mapFind? (mapInsert s.w.task_storage t.id
          (t.setStatus TaskStatus.PROCESSING)) id').map Task.status) =
          some TaskStatus.COMPLETED → _
      by_cases hid : id' = t.id
      · rw [hid, mapFind?_insert_self]
        intro hC'
        simp [Task.setStatus] at hC'
      · rw [mapFind?_insert_ne _ _ _ _ hid]
        intro hC'
        exact hC'
  | finish pre post t hin =>
      obtain ⟨hts, htr, hte, htf⟩ := hinf t (by rw [hin]; simp)
      left
      revert hC'
      show ((mapFind? (Worker.finishTask s.w t).task_storage id').map Task.status) =
          some TaskStatus.COMPLETED → _
      unfold Worker.finishTask
      cases hex : calculations.execute_calculation t.data.operation t.data.input with
      | ok r =>
          show ((mapFind? (mapInsert s.w.task_storage t.id (t.setResult r)) id').map
              Task.status) = some TaskStatus.COMPLETED → _
          by_cases hid : id' = t.id
          · rw [hid, mapFind?_insert_self]
            intro hC'
            simp [Task.setResult, hts] at hC'
          · rw [mapFind?_insert_ne _ _ _ _ hid]
            intro hC'
            exact hC'
      | error e =>
          show ((mapFind? (mapInsert s.w.task_storage t.id
              ((t.setErrorMessage e).setStatus TaskStatus.FAILED)) id').map
              Task.status) = some TaskStatus.COMPLETED → _
          by_cases hid : id' = t.id
          · rw [hid, mapFind?_insert_self]
            intro hC'
            simp [Task.setStatus] at hC'
          · rw [mapFind?_insert_ne _ _ _ _ hid]
            intro hC'
            exact hC'
  | complete id =>
      by_cases hid : id' = id
      · right
        rw [hid]
      · left
        revert hC'
        show ((mapFind? (s.w.completeTask id).1.task_storage id').map Task.status) =
            some TaskStatus.COMPLETED → _
        cases hfind : mapFind? s.w.task_storage id with
        | none =>
            rw [show (s.w.completeTask id).1 = s.w by
              simp [Worker.completeTask, hfind]]
            intro hC'
            exact hC'
        | some τ =>
            by_cases hc1 : τ.status = TaskStatus.PROCESSING ∧ τ.result ≠ ""
            · rw [show (s.w.completeTask id).1 =
                  { s.w with
                      task_storage := mapInsert s.w.task_storage id
                        (τ.setStatus TaskStatus.COMPLETED),
                      tasks_completed := s.w.tasks_completed + 1 } by
                simp [Worker.completeTask, hfind, hc1.1, hc1.2]]
              show ((mapFind? (mapInsert s.w.task_storage id
                  (τ.setStatus TaskStatus.COMPLETED)) id').map Task.status) =
                  some TaskStatus.COMPLETED → _
              rw [mapFind?_insert_ne _ _ _ _ hid]
              intro hC'
              exact hC'
            · by_cases hc2 : τ.status = TaskStatus.PROCESSING ∧ τ.result = "" ∧
                  τ.error_message ≠ ""
              · rw [show (s.w.completeTask id).1 =
                    { s.w with
                        task_storage := mapInsert s.w.task_storage id
                          (τ.setStatus TaskStatus.FAILED) } by
                  simp [Worker.completeTask, hfind, hc1, hc2.1, hc2.2.1, hc2.2.2]]
                show ((mapFind? (mapInsert s.w.task_storage id
                    (τ.setStatus TaskStatus.FAILED)) id').map Task.status) =
                    some TaskStatus.COMPLETED → _
                rw [mapFind?_insert_ne _ _ _ _ hid]
                intro hC'
                exact hC'
              · rw [show (s.w.completeTask id).1 = s.w by
                  simp [Worker.completeTask, hfind, hc1, hc2]]
                intro hC'
                exact hC'

/-- Every reachable state satisfies both invariants. -/
theorem reachable_Inv_CInv (s : SysState) (h : Reachable s) : Inv s ∧ CInv s := by
  induction h with
  | init => exact ⟨Inv_init, CInv_init⟩
  | step s s' l hr hstep ih =>
      exact ⟨step_preserves_Inv s s' l hstep ih.1,
        step_preserves_CInv s s' l hstep ih.1 ih.2⟩

/-- A create payload that injects `status = "completed"` together with a
result. -/
def jC4 : TaskJson :=
  { id := "c4", title := "T", priority := none,
    data := { type := "calculation", input := 3, operation := "factorial" },
    status := some "completed", result := some "6", error := none }

/-- The task built by `Task::from_json` from the C4 payload. -/
def tC4 : Task := Task.from_json jC4

/-- Counterexample to claim C4: a payload accepted by `createTask` stores a
record whose status is already COMPLETED, and the processing loop then
moves that record out of COMPLETED back to PROCESSING — so task records
reachable through the public operations do not only advance along
PENDING → PROCESSING → (COMPLETED or FAILED). -/
theorem C4_counterexample :
    ((TaskOrchestrator.init 1).createTask tC4).2 = Except.ok "c4" ∧
    (Worker.getTask (((TaskOrchestrator.init 1).createTask tC4).1.workers 0)
        "c4").map Task.status = some TaskStatus.COMPLETED ∧
    (Worker.getTask
        (Worker.stepProcess (((TaskOrchestrator.init 1).createTask tC4).1.workers 0))
        "c4").map Task.status = some TaskStatus.PROCESSING := by
  decide

/-- Claim C4 as amended: restricted to tasks that enter the worker in the
constructor-fresh form (status PENDING, empty result and error, unused id —
i.e. payloads that do not inject status, result or error through
`from_json`), every critical-section step of the system leaves each stored
record's status unchanged or advances it along
PENDING → PROCESSING → (COMPLETED or FAILED) — no skip, no reversal — and a
record becomes COMPLETED only through a `completeTask` call on its id.
Payloads that do inject a status break this (see the counterexample). -/
theorem C4_amended_statusMachine (s s' : SysState) (l : WLabel)
    (hreach : Reachable s) (hstep : WStep s l s') :
    (∀ id, advanceOk (statusAt s id) (statusAt s' id)) ∧
    (∀ id, statusAt s' id = some TaskStatus.COMPLETED →
      statusAt s id = some TaskStatus.COMPLETED ∨ l = WLabel.complete id) :=
  ⟨step_advance s s' l hstep (reachable_Inv_CInv s hreach).1,
   step_completed_only s s' l hstep (reachable_Inv_CInv s hreach).1⟩

/-- A constructor-fresh task for the C4 witness. -/
def tC4w : Task := Task.create "w4" "t" Priority.MEDIUM
  { type := "calculation", input := 4, operation := "factorial" }

/-- Witness for the amended C4: the create step on a fresh worker obeys the
status machine. -/
theorem C4_amended_witness :
    advanceOk (statusAt ⟨Worker.init, []⟩ "w4")
      (statusAt ⟨Worker.init.addTask tC4w, []⟩ "w4") :=
  (C4_amended_statusMachine ⟨Worker.init, []⟩ ⟨Worker.init.addTask tC4w, []⟩
      (WLabel.create tC4w) Reachable.init
      (WStep.create ⟨Worker.init, []⟩ tC4w rfl rfl rfl rfl)).1 "w4"

/-! Claim C8. -/

/-- At quiescent states the per-worker counters sum to the claimed
balance. -/
theorem quiescent_sums : ∀ (xs : List SysState),
    (∀ x ∈ xs, Reachable x) → (∀ x ∈ xs, x.inflight = []) →
    (xs.map (fun x => x.w.tasks_processed)).sum =
      (xs.map (fun x => x.w.tasks_completed)).sum +
      (xs.map (fun x => x.w.tasks_failed)).sum +
      (xs.map (fun x => countProcessing x.w.task_storage)).sum := by
  intro xs
  induction xs with
  | nil => intro _ _; simp
  | cons x xs ih =>
      intro hr hqui
      have hc := (reachable_Inv_CInv x (hr x (by simp))).2
      unfold CInv at hc
      rw [hqui x (by simp)] at hc
      simp only [List.length_nil, Nat.add_zero] at hc
      have hrest := ih (fun y hy => hr y (by simp [hy]))
        (fun y hy => hqui y (by simp [hy]))
      simp only [List.map_cons, List.sum_cons]
      omega

/-- A create payload that injects status "processing" together with a
result, used to refute the unrestricted statistics invariant. -/
def jC8x : TaskJson :=
  { id := "inj-8", title := "Injected", priority := some 1,
    data := { type := "calculation", input := 7, operation := "factorial" },
    status := some "processing", result := some "5040", error := none }

/-- The injected task built by `Task::from_json` from that payload. -/
def tC8x : Task := Task.from_json jC8x

/-- The single worker of a fresh orchestrator after the injected payload is
accepted by `createTask`.  No processing thread has dequeued anything, so
this is a quiescent point of the real system. -/
def wC8x : Worker := ((TaskOrchestrator.init 1).createTask tC8x).1.workers 0

/-- Counterexample to claim C8 as stated: a payload accepted through the
public `createTask` immediately yields a quiescent point (no processing
thread has even started) at which the system-wide statistics violate the
claimed equation — the stored record already has status PROCESSING with a
result, so `completeTask` would accept it as awaiting explicit completion,
yet every counter is still zero: total processed is 0 while
completed + failed + (PROCESSING records awaiting completion) is 1. -/
theorem C8_counterexample :
    ((TaskOrchestrator.init 1).createTask tC8x).2 = Except.ok "inj-8" ∧
    (updateSystemStats [wC8x]).total_tasks_processed = 0 ∧
    (updateSystemStats [wC8x]).total_tasks_completed +
      (updateSystemStats [wC8x]).total_tasks_failed +
      countProcessing wC8x.task_storage = 1 ∧
    (Worker.completeTask wC8x "inj-8").2 = true ∧
    ¬((updateSystemStats [wC8x]).total_tasks_processed =
      (updateSystemStats [wC8x]).total_tasks_completed +
        (updateSystemStats [wC8x]).total_tasks_failed +
        countProcessing wC8x.task_storage) := by
  decide

/-- Claim C8 as amended: restricted to tasks that enter workers in
constructor-fresh form with unused ids (no status, result or error
injection through `from_json`, and no duplicate-id resubmission
overwriting a processed record), at every quiescent point (each worker
reachable by the critical-section steps, with no processing thread
mid-computation) the system-wide statistics satisfy
processed = completed + failed + (number of stored PROCESSING records
awaiting an explicit completion); and `getSystemStats` recomputes each
total as a fresh sum of every worker's live counters
(`updateSystemStats`), never maintaining them incrementally.  Payloads
that inject a status, and duplicate-id resubmissions, break the equation
permanently (see the counterexample for this claim). -/
theorem C8_statsInvariant (xs : List SysState)
    (hr : ∀ x ∈ xs, Reachable x) (hqui : ∀ x ∈ xs, x.inflight = []) :
    ((updateSystemStats (xs.map (fun x => x.w))).total_tasks_processed =
      (updateSystemStats (xs.map (fun x => x.w))).total_tasks_completed +
      (updateSystemStats (xs.map (fun x => x.w))).total_tasks_failed +
      (xs.map (fun x => countProcessing x.w.task_storage)).sum) ∧
    (∀ ws : List Worker, updateSystemStats ws =
      { total_tasks_processed := (ws.map (fun w => w.tasks_processed)).sum,
        total_tasks_completed := (ws.map (fun w => w.tasks_completed)).sum,
        total_tasks_failed := (ws.map (fun w => w.tasks_failed)).sum }) ∧
    (∀ o : TaskOrchestrator, o.getSystemStats = updateSystemStats o.workerList) := by
  refine ⟨?_, fun ws => rfl, fun o => rfl⟩
  show ((xs.map (fun x => x.w)).map (fun w => w.tasks_processed)).sum =
    ((xs.map (fun x => x.w)).map (fun w => w.tasks_completed)).sum +
    ((xs.map (fun x => x.w)).map (fun w => w.tasks_failed)).sum +
    (xs.map (fun x => countProcessing x.w.task_storage)).sum
  simp only [List.map_map]
  exact quiescent_sums xs hr hqui

/-- A clean prime-check task for the C8 witness trace. -/
def tC8 : Task := Task.create "c8" "t" Priority.MEDIUM
  { type := "calculation", input := 17, operation := "prime_check" }

/-- C8 witness trace, state after the create step. -/
def sC8a : SysState := ⟨Worker.init.addTask tC8, []⟩

/-- C8 witness trace, state after the dequeue step. -/
def sC8b : SysState :=
  ⟨Worker.processTaskMid { sC8a.w with task_queue := ([] : List Task) } tC8,
    [tC8.setStatus TaskStatus.PROCESSING]⟩

/-- C8 witness trace, quiescent state after the finish step. -/
def sC8c : SysState :=
  ⟨Worker.finishTask sC8b.w (tC8.setStatus TaskStatus.PROCESSING), []⟩

/-- The C8 witness trace is reachable. -/
theorem reachable_sC8c : Reachable sC8c :=
  Reachable.step sC8b sC8c (WLabel.finish (tC8.setStatus TaskStatus.PROCESSING))
    (Reachable.step sC8a sC8b WLabel.dequeue
      (Reachable.step ⟨Worker.init, []⟩ sC8a (WLabel.create tC8)
        Reachable.init
        (WStep.create ⟨Worker.init, []⟩ tC8 rfl rfl rfl rfl))
      (WStep.dequeue sC8a tC8 [] rfl))
    (WStep.finish sC8b [] [] (tC8.setStatus TaskStatus.PROCESSING) rfl)

/-- Witness for C8 at the concrete quiescent one-worker trace. -/
theorem C8_statsInvariant_witness :
    (updateSystemStats ([sC8c].map (fun x => x.w))).total_tasks_processed =
      (updateSystemStats ([sC8c].map (fun x => x.w))).total_tasks_completed +
      (updateSystemStats ([sC8c].map (fun x => x.w))).total_tasks_failed +
      ([sC8c].map (fun x => countProcessing x.w.task_storage)).sum :=
  (C8_statsInvariant [sC8c]
    (fun x hx => by rw [List.mem_singleton.mp hx]; exact reachable_sC8c)
    (fun x hx => by rw [List.mem_singleton.mp hx]; rfl)).1

end TaskSys
